import Mathlib

/-!
Shallow embedding of the amortization engine of `calculadora.py`
(repository gondiam/calculadora_amortizacion).

Monetary quantities and rates are modelled as real numbers; the year / month
columns, row indices and month counters are natural numbers.  Each definition
mirrors one function (or one loop) of the Python source; line references point
into `calculadora.py`.
-/

set_option maxRecDepth 100000

namespace Calculadora

/-- Amortization system: French (constant installment) or German (constant
amortization) — the `sistema` parameter of `calculadora.py`. -/
inductive Sistema
  | frances
  | aleman
  deriving DecidableEq

/-- Re-amortization policy of a prepayment: reduce the installment keeping the
remaining term (`cuota`) or reduce the term keeping the installment (`plazo`) —
the `modo` parameter of `aplicar_amortizacion_parcial`. -/
inductive Modo
  | cuota
  | plazo
  deriving DecidableEq

/-- One row of the amortization table: the dict literal built at lines 88-97 /
114-123 / 139-148 of `calculadora.py` (year, month-of-year, installment,
interest, scheduled amortization, outstanding balance, extraordinary
prepayment, fee). -/
structure Fila where
  anio : ℕ
  mes : ℕ
  cuota : ℝ
  interes : ℝ
  amortizacion : ℝ
  capital_pendiente : ℝ
  amortizacion_anticipada : ℝ
  comision : ℝ

/-- Default row used for out-of-range list accesses (never reached on the
code paths the theorems describe). -/
noncomputable def filaDefecto : Fila :=
  { anio := 0, mes := 0, cuota := 0, interes := 0, amortizacion := 0,
    capital_pendiente := 0, amortizacion_anticipada := 0, comision := 0 }

/-- Row 0 of every generated table (lines 88-97): zero flows, balance =
principal. -/
noncomputable def filaInicial (principal : ℝ) : Fila :=
  { anio := 0, mes := 0, cuota := 0, interes := 0, amortizacion := 0,
    capital_pendiente := principal, amortizacion_anticipada := 0, comision := 0 }

/-- `calcular_tipo_mensual` (lines 29-39): TAE percentage to monthly rate,
`(1 + tae/100) ^ (1/12) - 1`. -/
noncomputable def calcular_tipo_mensual (tae : ℝ) : ℝ :=
  (1 + tae / 100) ^ ((1 : ℝ) / 12) - 1

/-- `calcular_cuota_francesa` (lines 42-60): French constant installment,
`P·r(1+r)^n/((1+r)^n - 1)` for `r ≠ 0`, else `P/n`. -/
noncomputable def calcular_cuota_francesa (principal tipo_mensual : ℝ) (meses : ℕ) : ℝ :=
  if tipo_mensual = 0 then principal / (meses : ℝ)
  else
    principal * (tipo_mensual * (1 + tipo_mensual) ^ meses) /
      ((1 + tipo_mensual) ^ meses - 1)

/-- Balance clamp of the generation loops (lines 108-109, 133-134, 288-289):
a balance that would go negative is reset to 0. -/
noncomputable def clampCapital (x : ℝ) : ℝ :=
  if x < 0 then 0 else x

/-- Running balance of a French-style loop (lines 102-123, also the `cuota`-mode
regeneration loop at lines 273-300): starting from `capital0`, each month pays
interest `b·r` and amortizes `cuota - b·r`, the new balance being clamped at 0. -/
noncomputable def capitalFrances (cuota tipo_mensual capital0 : ℝ) : ℕ → ℝ
  | 0 => capital0
  | i + 1 =>
      clampCapital (capitalFrances cuota tipo_mensual capital0 i -
        (cuota - capitalFrances cuota tipo_mensual capital0 i * tipo_mensual))

/-- The `i`-th French row (1-based within its loop), whose global month is
`mes0 + i` (the generator has `mes0 = 0`, the regeneration loop has
`mes0 = mes_global`). -/
noncomputable def filaFrances (cuota tipo_mensual capital0 : ℝ) (mes0 i : ℕ) : Fila :=
  { anio := (mes0 + i - 1) / 12 + 1
    mes := (mes0 + i - 1) % 12 + 1
    cuota := cuota
    interes := capitalFrances cuota tipo_mensual capital0 (i - 1) * tipo_mensual
    amortizacion := cuota - capitalFrances cuota tipo_mensual capital0 (i - 1) * tipo_mensual
    capital_pendiente := capitalFrances cuota tipo_mensual capital0 i
    amortizacion_anticipada := 0
    comision := 0 }

/-- The list of `m` French rows produced by the loop at lines 102-123 (or the
regeneration loop at lines 273-300 with `sistema = 'frances'`). -/
noncomputable def filasFrances (cuota tipo_mensual capital0 : ℝ) (mes0 m : ℕ) : List Fila :=
  (List.range m).map (fun k => filaFrances cuota tipo_mensual capital0 mes0 (k + 1))

/-- Running balance of a German-style loop (lines 128-148, also the `cuota`-mode
regeneration with `sistema = 'aleman'`): a fixed amount is amortized each month,
the new balance being clamped at 0. -/
noncomputable def capitalAleman (amortizacion_fija capital0 : ℝ) : ℕ → ℝ
  | 0 => capital0
  | i + 1 => clampCapital (capitalAleman amortizacion_fija capital0 i - amortizacion_fija)

/-- The `i`-th German row (1-based within its loop), global month `mes0 + i`. -/
noncomputable def filaAleman (amortizacion_fija tipo_mensual capital0 : ℝ) (mes0 i : ℕ) : Fila :=
  { anio := (mes0 + i - 1) / 12 + 1
    mes := (mes0 + i - 1) % 12 + 1
    cuota := amortizacion_fija + capitalAleman amortizacion_fija capital0 (i - 1) * tipo_mensual
    interes := capitalAleman amortizacion_fija capital0 (i - 1) * tipo_mensual
    amortizacion := amortizacion_fija
    capital_pendiente := capitalAleman amortizacion_fija capital0 i
    amortizacion_anticipada := 0
    comision := 0 }

/-- The list of `m` German rows produced by the loop at lines 128-148. -/
noncomputable def filasAleman (amortizacion_fija tipo_mensual capital0 : ℝ) (mes0 m : ℕ) :
    List Fila :=
  (List.range m).map (fun k => filaAleman amortizacion_fija tipo_mensual capital0 mes0 (k + 1))

/-- `generar_cuadro_amortizacion` (lines 63-150): row 0 followed by `meses`
French or German rows. -/
noncomputable def generar_cuadro_amortizacion (principal tae : ℝ) (meses : ℕ)
    (sistema : Sistema) : List Fila :=
  let tipo_mensual := calcular_tipo_mensual tae
  filaInicial principal ::
    (match sistema with
     | Sistema.frances =>
         filasFrances (calcular_cuota_francesa principal tipo_mensual meses)
           tipo_mensual principal 0 meses
     | Sistema.aleman =>
         filasAleman (principal / (meses : ℝ)) tipo_mensual principal 0 meses)

/-- `calcular_penalizacion` (lines 153-178): `cantidad · pct/100` while the
current global month is inside the penalty window, else 0.  (`meses_totales`
is accepted and ignored, as in the source.) -/
noncomputable def calcular_penalizacion (cantidad : ℝ) (mes_actual meses_totales : ℕ)
    (anios_penalizacion : ℕ) (pct_penalizacion : ℝ) : ℝ :=
  if mes_actual ≤ anios_penalizacion * 12 then cantidad * (pct_penalizacion / 100) else 0

/-- Linear search of lines 215-219: index of the first row whose (year,
month-of-year) matches the target. -/
def buscarFila (cuadro : List Fila) (anio_objetivo mes_objetivo : ℕ) : Option ℕ :=
  cuadro.findIdx? (fun f => f.anio == anio_objetivo && f.mes == mes_objetivo)

/-- The `plazo`-mode regeneration loop (lines 312-346): keep the installment
`cuota_original`, iterate while the balance exceeds 0.01; a row whose
amortization would reach the balance is capped (installment =
amortization + interest, balance 0) and ends the loop.  `fuel` mirrors the
`mes_contador > 1000` defensive break: the loop body runs at most 1000 times. -/
noncomputable def filasPlazo (cuota_original tipo_mensual : ℝ) (mes_global : ℕ) :
    ℝ → ℕ → ℕ → List Fila
  | _, _, 0 => []
  | capital, mes_contador, fuel + 1 =>
      if capital ≤ 0.01 then []
      else
        let interes := capital * tipo_mensual
        let amortizacion := cuota_original - interes
        if capital ≤ amortizacion then
          [{ anio := (mes_global + mes_contador - 1) / 12 + 1
             mes := (mes_global + mes_contador - 1) % 12 + 1
             cuota := capital + interes
             interes := interes
             amortizacion := capital
             capital_pendiente := 0
             amortizacion_anticipada := 0
             comision := 0 }]
        else
          { anio := (mes_global + mes_contador - 1) / 12 + 1
            mes := (mes_global + mes_contador - 1) % 12 + 1
            cuota := cuota_original
            interes := interes
            amortizacion := amortizacion
            capital_pendiente := capital - amortizacion
            amortizacion_anticipada := 0
            comision := 0 } ::
            filasPlazo cuota_original tipo_mensual mes_global (capital - amortizacion)
              (mes_contador + 1) fuel

/-- `aplicar_amortizacion_parcial` (lines 181-353).  The located row receives
the net prepayment and the fee and its balance is reduced; if the net amount
would overshoot, it is clamped to the balance, the fee is back-solved from the
fee ratio and the table is truncated; otherwise the remainder is regenerated in
`cuota` or `plazo` mode.  The penalty of lines 236-239 is computed and, as in
the source, never used. -/
noncomputable def aplicar_amortizacion_parcial (cuadro : List Fila) (cantidad : ℝ)
    (anio_aplicacion mes_aplicacion : ℕ) (tae : ℝ) (modo : Modo)
    (anios_penalizacion : ℕ) (pct_penalizacion pct_comision : ℝ)
    (sistema : Sistema) : List Fila :=
  let tipo_mensual := calcular_tipo_mensual tae
  match buscarFila cuadro anio_aplicacion mes_aplicacion with
  | none => cuadro
  | some idx =>
    if idx < 1 then cuadro
    else
      let fila := cuadro.getD idx filaDefecto
      let mes_global := (anio_aplicacion - 1) * 12 + mes_aplicacion
      let comision0 := cantidad * (pct_comision / 100)
      let cantidad_efectiva0 := cantidad - comision0
      let capital_antes := fila.capital_pendiente
      let _penalizacion := calcular_penalizacion cantidad mes_global (cuadro.length - 1)
        anios_penalizacion pct_penalizacion
      let nuevo_capital0 := capital_antes - cantidad_efectiva0
      let cantidad_efectiva :=
        if nuevo_capital0 < 0 then capital_antes else cantidad_efectiva0
      let comision :=
        if nuevo_capital0 < 0 then
          capital_antes / (1 - pct_comision / 100) * (pct_comision / 100)
        else comision0
      let nuevo_capital := if nuevo_capital0 < 0 then 0 else nuevo_capital0
      let cuadro2 := cuadro.set idx
        { fila with
          amortizacion_anticipada := cantidad_efectiva
          comision := comision
          capital_pendiente := nuevo_capital }
      if nuevo_capital = 0 then cuadro2.take (idx + 1)
      else
        let meses_restantes := cuadro.length - idx - 1
        match modo with
        | Modo.cuota =>
            cuadro2.take (idx + 1) ++
              (match sistema with
               | Sistema.frances =>
                   filasFrances
                     (calcular_cuota_francesa nuevo_capital tipo_mensual meses_restantes)
                     tipo_mensual nuevo_capital mes_global meses_restantes
               | Sistema.aleman =>
                   filasAleman (nuevo_capital / (meses_restantes : ℝ)) tipo_mensual
                     nuevo_capital mes_global meses_restantes)
        | Modo.plazo =>
            cuadro2.take (idx + 1) ++
              filasPlazo fila.cuota tipo_mensual mes_global nuevo_capital 1 1000

/-- Target months of `aplicar_amortizaciones_recurrentes` (line 392):
`range(mes_comienzo, meses + 1, periodicidad)`. -/
def mesesAmortizacion (mes_comienzo meses periodicidad : ℕ) : List ℕ :=
  List.range' mes_comienzo ((meses + 1 - mes_comienzo + periodicidad - 1) / periodicidad)
    periodicidad

/-- Row lookup of the orchestrator (lines 403-410): first index `≥ 1` whose
(year, month-of-year) matches the target. -/
def buscarFilaDesde1 (cuadro : List Fila) (anio_objetivo mes_objetivo : ℕ) : Option ℕ :=
  ((cuadro.drop 1).findIdx? (fun f => f.anio == anio_objetivo && f.mes == mes_objetivo)).map
    (· + 1)

/-- The orchestrator loop (lines 396-431) over the list of target global
months: a target without a matching row is skipped; a matching row whose
balance is already ≤ 0.01 stops the whole processing; otherwise the single
applier replaces the working schedule. -/
noncomputable def procesarMeses (tae cantidad_recurrente : ℝ) (modo : Modo)
    (anios_penalizacion : ℕ) (pct_penalizacion pct_comision : ℝ) (sistema : Sistema) :
    List Fila → List ℕ → List Fila
  | cuadro, [] => cuadro
  | cuadro, mes_objetivo :: resto =>
      let anio_objetivo := (mes_objetivo - 1) / 12 + 1
      let mes_del_anio := (mes_objetivo - 1) % 12 + 1
      match buscarFilaDesde1 cuadro anio_objetivo mes_del_anio with
      | none =>
          procesarMeses tae cantidad_recurrente modo anios_penalizacion
            pct_penalizacion pct_comision sistema cuadro resto
      | some idx =>
          if (cuadro.getD idx filaDefecto).capital_pendiente ≤ 0.01 then cuadro
          else
            procesarMeses tae cantidad_recurrente modo anios_penalizacion
              pct_penalizacion pct_comision sistema
              (aplicar_amortizacion_parcial cuadro cantidad_recurrente anio_objetivo
                mes_del_anio tae modo anios_penalizacion pct_penalizacion pct_comision
                sistema) resto

/-- `aplicar_amortizaciones_recurrentes` (lines 356-433): build the base
schedule and process every target month in increasing order. -/
noncomputable def aplicar_amortizaciones_recurrentes (principal tae : ℝ) (meses : ℕ)
    (cantidad_recurrente : ℝ) (periodicidad mes_comienzo : ℕ) (modo : Modo)
    (anios_penalizacion : ℕ) (pct_penalizacion pct_comision : ℝ) (sistema : Sistema) :
    List Fila :=
  procesarMeses tae cantidad_recurrente modo anios_penalizacion pct_penalizacion
    pct_comision sistema
    (generar_cuadro_amortizacion principal tae meses sistema)
    (mesesAmortizacion mes_comienzo meses periodicidad)

/-- Summary record returned by `calcular_resumen` (lines 477-487). -/
structure Resumen where
  total_intereses : ℝ
  total_pagado : ℝ
  num_cuotas : ℕ
  cuota_inicial : ℝ
  cuota_final : ℝ
  cuota_media : ℝ
  total_amortizacion_anticipada : ℝ
  total_comisiones : ℝ
  duracion_anios : ℝ

/-- `calcular_resumen` (lines 436-487): column sums over rows 1..N, first
installment, mean installment, and the installment following the last
extraordinary prepayment. -/
noncomputable def calcular_resumen (cuadro : List Fila) : Resumen :=
  let sin_fila0 := cuadro.drop 1
  let total_intereses := (sin_fila0.map Fila.interes).sum
  let _total_amortizado := (sin_fila0.map Fila.amortizacion).sum
  let total_amortizacion_anticipada := (sin_fila0.map Fila.amortizacion_anticipada).sum
  let total_comisiones := (sin_fila0.map Fila.comision).sum
  let total_cuotas := (sin_fila0.map Fila.cuota).sum
  let num_cuotas := sin_fila0.length
  let cuota_media := total_cuotas / (num_cuotas : ℝ)
  let primera_cuota := match sin_fila0 with | [] => 0 | f :: _ => f.cuota
  let con_amortizacion := (List.range cuadro.length).filter
    (fun i => decide (1 ≤ i) && decide (0 < (cuadro.getD i filaDefecto).amortizacion_anticipada))
  let cuota_final :=
    match con_amortizacion.getLast? with
    | none => primera_cuota
    | some pos_ultimo =>
        if pos_ultimo + 1 < cuadro.length then (cuadro.getD (pos_ultimo + 1) filaDefecto).cuota
        else (cuadro.getD pos_ultimo filaDefecto).cuota
  { total_intereses := total_intereses
    total_pagado := total_cuotas + total_amortizacion_anticipada + total_comisiones
    num_cuotas := num_cuotas
    cuota_inicial := primera_cuota
    cuota_final := cuota_final
    cuota_media := cuota_media
    total_amortizacion_anticipada := total_amortizacion_anticipada
    total_comisiones := total_comisiones
    duracion_anios := (num_cuotas : ℝ) / 12 }

/-!  ### Helper lemmas  -/

/-- The updated event row written at lines 251-254. -/
noncomputable def filaActualizada (fila : Fila) (neta nueva_comision nuevo_capital : ℝ) :
    Fila :=
  { fila with
    amortizacion_anticipada := neta
    comision := nueva_comision
    capital_pendiente := nuevo_capital }

theorem buscarFila_lt_length {cuadro : List Fila} {a m idx : ℕ}
    (h : buscarFila cuadro a m = some idx) : idx < cuadro.length := by
  unfold buscarFila at h
  exact (List.findIdx?_eq_some_iff_getElem.mp h).1

/-- Branch of `aplicar_amortizacion_parcial` in which the net amount overshoots
the balance (lines 243-249 followed by the truncation of lines 256-258). -/
theorem aplicar_clamp {cuadro : List Fila} {cantidad : ℝ} {a m : ℕ} {tae : ℝ}
    {modo : Modo} {an : ℕ} {pp pc : ℝ} {s : Sistema} {idx : ℕ}
    (hfind : buscarFila cuadro a m = some idx) (h1 : 1 ≤ idx)
    (hneg : (cuadro.getD idx filaDefecto).capital_pendiente -
      (cantidad - cantidad * (pc / 100)) < 0) :
    aplicar_amortizacion_parcial cuadro cantidad a m tae modo an pp pc s =
      (cuadro.set idx
        (filaActualizada (cuadro.getD idx filaDefecto)
          (cuadro.getD idx filaDefecto).capital_pendiente
          ((cuadro.getD idx filaDefecto).capital_pendiente / (1 - pc / 100) * (pc / 100))
          0)).take (idx + 1) := by
  unfold aplicar_amortizacion_parcial
  rw [hfind]
  simp only [filaActualizada, if_neg (by omega : ¬ idx < 1), if_pos hneg]
  simp

/-- Reading back the updated row from the truncated table. -/
theorem getD_take_set (cuadro : List Fila) (idx : ℕ) (F : Fila) (h : idx < cuadro.length) :
    ((cuadro.set idx F).take (idx + 1)).getD idx filaDefecto = F := by
  rw [List.getD_eq_getElem?_getD, List.getElem?_take_of_lt (Nat.lt_succ_self idx),
    List.getElem?_set_self (by simpa using h)]
  rfl

/-- Reading back the updated row from the truncated table with regenerated rows
appended. -/
theorem getD_take_set_append (cuadro resto : List Fila) (idx : ℕ) (F : Fila)
    (h : idx < cuadro.length) :
    (((cuadro.set idx F).take (idx + 1)) ++ resto).getD idx filaDefecto = F := by
  rw [List.getD_eq_getElem?_getD,
    List.getElem?_append_left
      (by simp only [List.length_take, List.length_set]; omega),
    ← List.getD_eq_getElem?_getD, getD_take_set cuadro idx F h]

/-- Length of the truncated table. -/
theorem length_take_set (cuadro : List Fila) (idx : ℕ) (F : Fila)
    (h : idx < cuadro.length) :
    ((cuadro.set idx F).take (idx + 1)).length = idx + 1 := by
  simp only [List.length_take, List.length_set]
  omega

/-- Branch of `aplicar_amortizacion_parcial` in which the net amount exactly
pays off the balance: no back-solve (lines 243-249 are skipped), the row is
marked with the plain fee and balance 0, and the table is truncated at the row
(lines 256-258). -/
theorem aplicar_exacto {cuadro : List Fila} {cantidad : ℝ} {a m : ℕ} {tae : ℝ}
    {modo : Modo} {an : ℕ} {pp pc : ℝ} {s : Sistema} {idx : ℕ}
    (hfind : buscarFila cuadro a m = some idx) (h1 : 1 ≤ idx)
    (hz : (cuadro.getD idx filaDefecto).capital_pendiente -
      (cantidad - cantidad * (pc / 100)) = 0) :
    aplicar_amortizacion_parcial cuadro cantidad a m tae modo an pp pc s =
      (cuadro.set idx
        (filaActualizada (cuadro.getD idx filaDefecto)
          (cantidad - cantidad * (pc / 100)) (cantidad * (pc / 100)) 0)).take (idx + 1) := by
  have hneg : ¬ ((cuadro.getD idx filaDefecto).capital_pendiente -
      (cantidad - cantidad * (pc / 100)) < 0) := by
    rw [hz]
    exact lt_irrefl 0
  unfold aplicar_amortizacion_parcial
  rw [hfind]
  simp only [if_neg (by omega : ¬ idx < 1), if_neg hneg, if_pos hz]
  rw [hz]
  rfl

/-- Branch in which the net amount is within the balance (lines 251-254); the
event row receives the net amount, the fee and the reduced balance, whatever
happens afterwards. -/
theorem aplicar_fila_marcada {cuadro : List Fila} {cantidad : ℝ} {a m : ℕ} {tae : ℝ}
    {modo : Modo} {an : ℕ} {pp pc : ℝ} {s : Sistema} {idx : ℕ}
    (hfind : buscarFila cuadro a m = some idx) (h1 : 1 ≤ idx)
    (hpos : ¬ (cuadro.getD idx filaDefecto).capital_pendiente -
      (cantidad - cantidad * (pc / 100)) < 0) :
    (aplicar_amortizacion_parcial cuadro cantidad a m tae modo an pp pc s).getD idx
        filaDefecto =
      filaActualizada (cuadro.getD idx filaDefecto) (cantidad - cantidad * (pc / 100))
        (cantidad * (pc / 100))
        ((cuadro.getD idx filaDefecto).capital_pendiente -
          (cantidad - cantidad * (pc / 100))) := by
  have hlen : idx < cuadro.length := buscarFila_lt_length hfind
  unfold aplicar_amortizacion_parcial
  rw [hfind]
  simp only [if_neg (by omega : ¬ idx < 1), if_neg hpos]
  split
  · rw [getD_take_set cuadro idx _ hlen]; rfl
  · split
    · rw [getD_take_set_append cuadro _ idx _ hlen]; rfl
    · rw [getD_take_set_append cuadro _ idx _ hlen]; rfl

/-- Concrete row used to instantiate theorems with hypotheses on small
hand-made tables. -/
noncomputable def filaPrueba : Fila :=
  { anio := 1, mes := 1, cuota := 10, interes := 0, amortizacion := 10,
    capital_pendiente := 90, amortizacion_anticipada := 0, comision := 0 }

/-!  ### Claim C2  -/

/-- Statement of claim C2 for one application: fee and net amount, the
recorded row, the back-solved fee, and the truncation of the overshoot case. -/
def PropC2 (cuadro : List Fila) (cantidad : ℝ) (a m : ℕ) (tae : ℝ) (modo : Modo)
    (an : ℕ) (pp pc : ℝ) (s : Sistema) (idx : ℕ) : Prop :=
  let fila := cuadro.getD idx filaDefecto
  let fee := cantidad * (pc / 100)
  let neta := cantidad - fee
  let res := aplicar_amortizacion_parcial cuadro cantidad a m tae modo an pp pc s
  (¬ fila.capital_pendiente < neta →
    res.getD idx filaDefecto =
      filaActualizada fila neta fee (fila.capital_pendiente - neta)) ∧
  (fila.capital_pendiente < neta →
    res =
      (cuadro.set idx
        (filaActualizada fila fila.capital_pendiente
          (fila.capital_pendiente * (pc / 100) / (1 - pc / 100)) 0)).take (idx + 1) ∧
    res.length = idx + 1)

/-- Claim C2: for every schedule and prepayment event whose target matches a
row with index ≥ 1, the applier computes fee = gross·fee_rate/100 and
net = gross − fee, records net as the row's extraordinary prepayment and fee as
its fee, and overwrites the row's balance with balance − net; if net exceeds
the row's balance it instead sets net := balance, back-solves
fee = net·(fee_rate/100)/(1 − fee_rate/100), sets the row's balance to 0 and
returns the schedule truncated at that row with no regeneration. -/
theorem claim_C2 (cuadro : List Fila) (cantidad : ℝ) (a m : ℕ) (tae : ℝ)
    (modo : Modo) (an : ℕ) (pp pc : ℝ) (s : Sistema) (idx : ℕ)
    (hfind : buscarFila cuadro a m = some idx) (h1 : 1 ≤ idx) :
    PropC2 cuadro cantidad a m tae modo an pp pc s idx := by
  have hlen : idx < cuadro.length := buscarFila_lt_length hfind
  constructor
  · intro hle
    exact @aplicar_fila_marcada cuadro cantidad a m tae modo an pp pc s idx hfind h1
      (by simpa [sub_neg] using hle)
  · intro hlt
    have hres := @aplicar_clamp cuadro cantidad a m tae modo an pp pc s idx hfind h1
      (by simpa [sub_neg] using hlt)
    rw [div_mul_eq_mul_div] at hres
    refine ⟨hres, ?_⟩
    rw [hres]
    exact length_take_set cuadro idx _ hlen

/-- Witness instantiating claim C2 on a two-row table. -/
theorem claim_C2_witness :
    PropC2 [filaInicial 100, filaPrueba] 10 1 1 0 Modo.cuota 0 0 0 Sistema.frances 1 :=
  claim_C2 [filaInicial 100, filaPrueba] 10 1 1 0 Modo.cuota 0 0 0 Sistema.frances 1
    (by decide) (by decide)

/-!  ### Claim C10  -/

/-- Statement of claim C10: exact payoff still truncates, but the fee is the
plain gross·fee_rate/100, with no back-solving. -/
def PropC10 (cuadro : List Fila) (cantidad : ℝ) (a m : ℕ) (tae : ℝ) (modo : Modo)
    (an : ℕ) (pp pc : ℝ) (s : Sistema) (idx : ℕ) : Prop :=
  let fila := cuadro.getD idx filaDefecto
  let fee := cantidad * (pc / 100)
  let neta := cantidad - fee
  let res := aplicar_amortizacion_parcial cuadro cantidad a m tae modo an pp pc s
  res = (cuadro.set idx (filaActualizada fila neta fee 0)).take (idx + 1) ∧
  res.length = idx + 1

/-- Claim C10: if the net prepayment exactly equals the outstanding balance at
the located row, the applier still sets that row's balance to 0 and truncates
the schedule there, exactly as in the overpayment case, but the recorded fee
remains gross·fee_rate/100 with no back-solving, since the back-solve branch is
taken only when net strictly exceeds the balance. -/
theorem claim_C10 (cuadro : List Fila) (cantidad : ℝ) (a m : ℕ) (tae : ℝ)
    (modo : Modo) (an : ℕ) (pp pc : ℝ) (s : Sistema) (idx : ℕ)
    (hfind : buscarFila cuadro a m = some idx) (h1 : 1 ≤ idx)
    (hz : cantidad - cantidad * (pc / 100) = (cuadro.getD idx filaDefecto).capital_pendiente) :
    PropC10 cuadro cantidad a m tae modo an pp pc s idx := by
  have hlen : idx < cuadro.length := buscarFila_lt_length hfind
  have hres := @aplicar_exacto cuadro cantidad a m tae modo an pp pc s idx hfind h1
    (by rw [hz]; ring)
  refine ⟨hres, ?_⟩
  rw [hres]
  exact length_take_set cuadro idx _ hlen

/-- Witness instantiating claim C10: net 90 against balance 90. -/
theorem claim_C10_witness :
    PropC10 [filaInicial 100, filaPrueba] 90 1 1 0 Modo.cuota 0 0 0 Sistema.frances 1 :=
  claim_C10 [filaInicial 100, filaPrueba] 90 1 1 0 Modo.cuota 0 0 0 Sistema.frances 1
    (by decide) (by decide) (by norm_num [filaPrueba, filaDefecto])

/-!  ### Claim C9  -/

/-- Penalty independence of the orchestrator loop. -/
theorem procesarMeses_indep (tae c : ℝ) (modo : Modo) (an1 an2 : ℕ)
    (pp1 pp2 pc : ℝ) (s : Sistema) :
    ∀ (ms : List ℕ) (cuadro : List Fila),
      procesarMeses tae c modo an1 pp1 pc s cuadro ms =
        procesarMeses tae c modo an2 pp2 pc s cuadro ms := by
  intro ms
  induction ms with
  | nil => intro cuadro; rfl
  | cons mo resto ih =>
      intro cuadro
      simp only [procesarMeses]
      cases hb : buscarFilaDesde1 cuadro ((mo - 1) / 12 + 1) ((mo - 1) % 12 + 1) with
      | none => exact ih cuadro
      | some idx =>
          split
          · exact ih cuadro
          · split
            · rfl
            · exact ih _

/-- Claim C9: the schedules returned by the single applier and the recurring
orchestrator (and therefore their summaries) do not depend on the penalty rate
or the penalty window: the computed penalty is never applied to any balance,
never recorded on any row and never included in any summary field. -/
theorem claim_C9 (cuadro : List Fila) (cantidad : ℝ) (a m : ℕ) (tae : ℝ)
    (modo : Modo) (an1 an2 : ℕ) (pp1 pp2 pc : ℝ) (s : Sistema)
    (principal : ℝ) (meses : ℕ) (cantidad_recurrente : ℝ) (periodicidad mes_comienzo : ℕ) :
    (aplicar_amortizacion_parcial cuadro cantidad a m tae modo an1 pp1 pc s =
      aplicar_amortizacion_parcial cuadro cantidad a m tae modo an2 pp2 pc s) ∧
    (calcular_resumen (aplicar_amortizacion_parcial cuadro cantidad a m tae modo an1 pp1 pc s) =
      calcular_resumen (aplicar_amortizacion_parcial cuadro cantidad a m tae modo an2 pp2 pc s)) ∧
    (aplicar_amortizaciones_recurrentes principal tae meses cantidad_recurrente periodicidad
        mes_comienzo modo an1 pp1 pc s =
      aplicar_amortizaciones_recurrentes principal tae meses cantidad_recurrente periodicidad
        mes_comienzo modo an2 pp2 pc s) ∧
    (calcular_resumen (aplicar_amortizaciones_recurrentes principal tae meses
        cantidad_recurrente periodicidad mes_comienzo modo an1 pp1 pc s) =
      calcular_resumen (aplicar_amortizaciones_recurrentes principal tae meses
        cantidad_recurrente periodicidad mes_comienzo modo an2 pp2 pc s)) := by
  have hrec := procesarMeses_indep tae cantidad_recurrente modo an1 an2 pp1 pp2 pc s
    (mesesAmortizacion mes_comienzo meses periodicidad)
    (generar_cuadro_amortizacion principal tae meses s)
  exact ⟨rfl, rfl, hrec, congrArg calcular_resumen hrec⟩

/-!  ### Claim C5  -/

/-- Membership in the generated target months: exactly the months
`mes_comienzo + k·periodicidad` that do not exceed the requested term. -/
theorem mesesAmortizacion_mem (mes_comienzo meses periodicidad : ℕ)
    (hper : 1 ≤ periodicidad) (x : ℕ) :
    x ∈ mesesAmortizacion mes_comienzo meses periodicidad ↔
      ∃ k, x = mes_comienzo + periodicidad * k ∧ x ≤ meses := by
  unfold mesesAmortizacion
  rw [List.mem_range']
  constructor
  · rintro ⟨i, hi, rfl⟩
    refine ⟨i, rfl, ?_⟩
    have h2 : (i + 1) * periodicidad ≤ meses + 1 - mes_comienzo + periodicidad - 1 :=
      (Nat.le_div_iff_mul_le hper).mp hi
    rw [Nat.succ_mul] at h2
    rw [Nat.mul_comm periodicidad i]
    generalize i * periodicidad = t at h2 ⊢
    omega
  · rintro ⟨k, rfl, hle⟩
    refine ⟨k, ?_, rfl⟩
    rw [Nat.lt_iff_add_one_le, Nat.le_div_iff_mul_le hper, Nat.succ_mul]
    rw [Nat.mul_comm periodicidad k] at hle
    generalize k * periodicidad = t at hle ⊢
    omega

/-- The `k`-th generated target month is `mes_comienzo + periodicidad·k`:
the targets are produced in increasing order. -/
theorem mesesAmortizacion_getD (mes_comienzo meses periodicidad k : ℕ)
    (hk : k < (mesesAmortizacion mes_comienzo meses periodicidad).length) :
    (mesesAmortizacion mes_comienzo meses periodicidad).getD k 0 =
      mes_comienzo + periodicidad * k := by
  unfold mesesAmortizacion at hk ⊢
  rw [List.getD_eq_getElem?_getD,
    List.getElem?_range' mes_comienzo periodicidad (by simpa using hk)]
  rfl

/-- Meaning of the orchestrator's row lookup: a hit is the first row with
index ≥ 1 carrying the target (year, month-of-year). -/
theorem buscarFilaDesde1_some {cuadro : List Fila} {a m idx : ℕ}
    (h : buscarFilaDesde1 cuadro a m = some idx) :
    1 ≤ idx ∧ idx < cuadro.length ∧ (cuadro.getD idx filaDefecto).anio = a ∧
      (cuadro.getD idx filaDefecto).mes = m := by
  unfold buscarFilaDesde1 at h
  cases hf : (cuadro.drop 1).findIdx? (fun f => f.anio == a && f.mes == m) with
  | none => rw [hf] at h; simp at h
  | some j =>
      rw [hf] at h
      simp only [Option.map_some', Option.some.injEq] at h
      obtain ⟨hjlen, hpj, -⟩ := List.findIdx?_eq_some_iff_getElem.mp hf
      subst h
      have hjlen' : j < cuadro.length - 1 := by simpa using hjlen
      have hget : cuadro.getD (j + 1) filaDefecto = (cuadro.drop 1)[j] := by
        rw [List.getD_eq_getElem?_getD, Nat.add_comm j 1, ← List.getElem?_drop,
          List.getElem?_eq_getElem hjlen]
        rfl
      simp only [Bool.and_eq_true, beq_iff_eq] at hpj
      exact ⟨by omega, by omega, by rw [hget]; exact hpj.1, by rw [hget]; exact hpj.2⟩

/-- One step of the orchestrator loop, written out. -/
theorem procesarMeses_cons (tae c : ℝ) (modo : Modo) (an : ℕ) (pp pc : ℝ)
    (s : Sistema) (cuadro : List Fila) (mo : ℕ) (resto : List ℕ) :
    procesarMeses tae c modo an pp pc s cuadro (mo :: resto) =
      match buscarFilaDesde1 cuadro ((mo - 1) / 12 + 1) ((mo - 1) % 12 + 1) with
      | none => procesarMeses tae c modo an pp pc s cuadro resto
      | some idx =>
          if (cuadro.getD idx filaDefecto).capital_pendiente ≤ 0.01 then cuadro
          else
            procesarMeses tae c modo an pp pc s
              (aplicar_amortizacion_parcial cuadro c ((mo - 1) / 12 + 1)
                ((mo - 1) % 12 + 1) tae modo an pp pc s) resto := rfl

/-- Miss of the orchestrator's row lookup: no row after row 0 carries the
target (year, month-of-year). -/
theorem buscarFilaDesde1_none_iff (cuadro : List Fila) (a m : ℕ) :
    buscarFilaDesde1 cuadro a m = none ↔
      ∀ f ∈ cuadro.drop 1, ¬ (f.anio = a ∧ f.mes = m) := by
  unfold buscarFilaDesde1
  simp [List.findIdx?_eq_none_iff, not_and]

/-- Statement of claim C5: the orchestrator builds the base schedule, generates
the arithmetic progression of target months bounded by the requested term, and
processes them in order, skipping missing targets, stopping at an exhausted
balance, and otherwise replacing the working schedule by the applier's
result. -/
def PropC5 (principal tae : ℝ) (meses : ℕ) (cantidad : ℝ)
    (periodicidad mes_comienzo : ℕ) (modo : Modo) (an : ℕ) (pp pc : ℝ)
    (s : Sistema) : Prop :=
  let objetivos := mesesAmortizacion mes_comienzo meses periodicidad
  (aplicar_amortizaciones_recurrentes principal tae meses cantidad periodicidad
      mes_comienzo modo an pp pc s =
    procesarMeses tae cantidad modo an pp pc s
      (generar_cuadro_amortizacion principal tae meses s) objetivos) ∧
  (∀ x, x ∈ objetivos ↔ ∃ k, x = mes_comienzo + periodicidad * k ∧ x ≤ meses) ∧
  (∀ k, k < objetivos.length → objetivos.getD k 0 = mes_comienzo + periodicidad * k) ∧
  (∀ (cuadro : List Fila) (mo : ℕ) (resto : List ℕ),
    buscarFilaDesde1 cuadro ((mo - 1) / 12 + 1) ((mo - 1) % 12 + 1) = none →
      procesarMeses tae cantidad modo an pp pc s cuadro (mo :: resto) =
        procesarMeses tae cantidad modo an pp pc s cuadro resto) ∧
  (∀ (cuadro : List Fila) (mo : ℕ) (resto : List ℕ) (idx : ℕ),
    buscarFilaDesde1 cuadro ((mo - 1) / 12 + 1) ((mo - 1) % 12 + 1) = some idx →
      (cuadro.getD idx filaDefecto).capital_pendiente ≤ 0.01 →
      procesarMeses tae cantidad modo an pp pc s cuadro (mo :: resto) = cuadro) ∧
  (∀ (cuadro : List Fila) (mo : ℕ) (resto : List ℕ) (idx : ℕ),
    buscarFilaDesde1 cuadro ((mo - 1) / 12 + 1) ((mo - 1) % 12 + 1) = some idx →
      ¬ (cuadro.getD idx filaDefecto).capital_pendiente ≤ 0.01 →
      procesarMeses tae cantidad modo an pp pc s cuadro (mo :: resto) =
        procesarMeses tae cantidad modo an pp pc s
          (aplicar_amortizacion_parcial cuadro cantidad ((mo - 1) / 12 + 1)
            ((mo - 1) % 12 + 1) tae modo an pp pc s) resto) ∧
  (∀ (cuadro : List Fila) (a m idx : ℕ),
    buscarFilaDesde1 cuadro a m = some idx →
      1 ≤ idx ∧ idx < cuadro.length ∧ (cuadro.getD idx filaDefecto).anio = a ∧
        (cuadro.getD idx filaDefecto).mes = m) ∧
  (∀ (cuadro : List Fila) (a m : ℕ),
    buscarFilaDesde1 cuadro a m = none ↔
      ∀ f ∈ cuadro.drop 1, ¬ (f.anio = a ∧ f.mes = m))

/-- Claim C5: the recurring-prepayment orchestrator builds the base schedule,
generates target months `mes_comienzo, mes_comienzo + periodicidad, …` while
they do not exceed the original term, and processes them in increasing order
against the current schedule: a target with no matching row is skipped (later
targets still evaluated), a matching row with balance ≤ 0.01 stops processing
entirely, and otherwise the single applier is invoked there and its result
replaces the working schedule. -/
theorem claim_C5 (principal tae : ℝ) (meses : ℕ) (cantidad : ℝ)
    (periodicidad mes_comienzo : ℕ) (modo : Modo) (an : ℕ) (pp pc : ℝ)
    (s : Sistema) (hper : 1 ≤ periodicidad) :
    PropC5 principal tae meses cantidad periodicidad mes_comienzo modo an pp pc s := by
  refine ⟨rfl, mesesAmortizacion_mem mes_comienzo meses periodicidad hper,
    mesesAmortizacion_getD mes_comienzo meses periodicidad, ?_, ?_, ?_,
    fun cuadro a m idx h => buscarFilaDesde1_some h,
    fun cuadro a m => buscarFilaDesde1_none_iff cuadro a m⟩
  · intro cuadro mo resto h
    rw [procesarMeses_cons, h]
  · intro cuadro mo resto idx h hcap
    rw [procesarMeses_cons, h]
    exact if_pos hcap
  · intro cuadro mo resto idx h hcap
    rw [procesarMeses_cons, h]
    exact if_neg hcap

/-- Witness instantiating claim C5 (periodicity 3 over a 7-month loan). -/
theorem claim_C5_witness :
    PropC5 1000 0 7 10 3 1 Modo.cuota 0 0 0 Sistema.frances :=
  claim_C5 1000 0 7 10 3 1 Modo.cuota 0 0 0 Sistema.frances (by decide)

/-!  ### Generator access lemmas  -/

theorem filasFrances_getD (cuota tipo_mensual capital0 : ℝ) (mes0 : ℕ) {m k : ℕ}
    (hk : k < m) :
    (filasFrances cuota tipo_mensual capital0 mes0 m).getD k filaDefecto =
      filaFrances cuota tipo_mensual capital0 mes0 (k + 1) := by
  unfold filasFrances
  rw [List.getD_eq_getElem?_getD, List.getElem?_map, List.getElem?_range hk]
  rfl

theorem filasAleman_getD (amortizacion_fija tipo_mensual capital0 : ℝ) (mes0 : ℕ)
    {m k : ℕ} (hk : k < m) :
    (filasAleman amortizacion_fija tipo_mensual capital0 mes0 m).getD k filaDefecto =
      filaAleman amortizacion_fija tipo_mensual capital0 mes0 (k + 1) := by
  unfold filasAleman
  rw [List.getD_eq_getElem?_getD, List.getElem?_map, List.getElem?_range hk]
  rfl

theorem generar_length (principal tae : ℝ) (meses : ℕ) (sistema : Sistema) :
    (generar_cuadro_amortizacion principal tae meses sistema).length = meses + 1 := by
  cases sistema <;>
    simp [generar_cuadro_amortizacion, filasFrances, filasAleman]

theorem generar_getD_zero (principal tae : ℝ) (meses : ℕ) (sistema : Sistema) :
    (generar_cuadro_amortizacion principal tae meses sistema).getD 0 filaDefecto =
      filaInicial principal := by
  cases sistema <;> rfl

theorem generar_frances_getD (principal tae : ℝ) {meses i : ℕ} (h1 : 1 ≤ i)
    (h2 : i ≤ meses) :
    (generar_cuadro_amortizacion principal tae meses Sistema.frances).getD i filaDefecto =
      filaFrances (calcular_cuota_francesa principal (calcular_tipo_mensual tae) meses)
        (calcular_tipo_mensual tae) principal 0 i := by
  obtain ⟨j, rfl⟩ : ∃ j, i = j + 1 := ⟨i - 1, (Nat.succ_pred_eq_of_pos h1).symm⟩
  show (List.getD (_ :: _) (j + 1) filaDefecto) = _
  rw [List.getD_cons_succ, filasFrances_getD _ _ _ _ (by omega)]

theorem generar_aleman_getD (principal tae : ℝ) {meses i : ℕ} (h1 : 1 ≤ i)
    (h2 : i ≤ meses) :
    (generar_cuadro_amortizacion principal tae meses Sistema.aleman).getD i filaDefecto =
      filaAleman (principal / (meses : ℝ)) (calcular_tipo_mensual tae) principal 0 i := by
  obtain ⟨j, rfl⟩ : ∃ j, i = j + 1 := ⟨i - 1, (Nat.succ_pred_eq_of_pos h1).symm⟩
  show (List.getD (_ :: _) (j + 1) filaDefecto) = _
  rw [List.getD_cons_succ, filasAleman_getD _ _ _ _ (by omega)]

/-- Balance column of the French table: row `j` (0 ≤ j ≤ meses) carries the
running balance after `j` months. -/
theorem generar_frances_capital (principal tae : ℝ) {meses j : ℕ} (h : j ≤ meses) :
    ((generar_cuadro_amortizacion principal tae meses Sistema.frances).getD j
        filaDefecto).capital_pendiente =
      capitalFrances (calcular_cuota_francesa principal (calcular_tipo_mensual tae) meses)
        (calcular_tipo_mensual tae) principal j := by
  cases j with
  | zero => rw [generar_getD_zero]; rfl
  | succ j => rw [generar_frances_getD principal tae (by omega) h]; rfl

theorem generar_aleman_capital (principal tae : ℝ) {meses j : ℕ} (h : j ≤ meses) :
    ((generar_cuadro_amortizacion principal tae meses Sistema.aleman).getD j
        filaDefecto).capital_pendiente =
      capitalAleman (principal / (meses : ℝ)) principal j := by
  cases j with
  | zero => rw [generar_getD_zero]; rfl
  | succ j => rw [generar_aleman_getD principal tae (by omega) h]; rfl

/-!  ### Claim C1  -/

/-- Statement of claim C1: shape of the generated schedule, row 0, the
year/month layout, and the French / German recurrences with the clamping of
the balance. -/
def PropC1 (principal tae : ℝ) (meses : ℕ) (sistema : Sistema) : Prop :=
  let r := calcular_tipo_mensual tae
  let cuadro := generar_cuadro_amortizacion principal tae meses sistema
  let f0 := cuadro.getD 0 filaDefecto
  cuadro.length = meses + 1 ∧
  (f0.anio = 0 ∧ f0.mes = 0 ∧ f0.cuota = 0 ∧ f0.interes = 0 ∧ f0.amortizacion = 0 ∧
    f0.capital_pendiente = principal ∧ f0.amortizacion_anticipada = 0 ∧ f0.comision = 0) ∧
  ∀ i, 1 ≤ i → i ≤ meses →
    let f := cuadro.getD i filaDefecto
    let b := (cuadro.getD (i - 1) filaDefecto).capital_pendiente
    f.anio = (i - 1) / 12 + 1 ∧
    f.mes = (i - 1) % 12 + 1 ∧
    f.interes = b * r ∧
    f.amortizacion_anticipada = 0 ∧
    f.comision = 0 ∧
    (sistema = Sistema.frances →
      (0 < r → f.cuota = principal * (r * (1 + r) ^ meses) / ((1 + r) ^ meses - 1)) ∧
      (r = 0 → f.cuota = principal / (meses : ℝ)) ∧
      f.amortizacion = f.cuota - f.interes) ∧
    (sistema = Sistema.aleman →
      f.amortizacion = principal / (meses : ℝ) ∧
      f.cuota = f.amortizacion + f.interes) ∧
    f.capital_pendiente = if b - f.amortizacion < 0 then 0 else b - f.amortizacion

/-- Claim C1: for every loan (positive principal, rate ≥ 0, term ≥ 1, French or
German system) the generator returns `meses + 1` rows, row 0 is the initial
state, row `i` carries year `(i−1)/12 + 1` and month `(i−1)%12 + 1`, and the
rows follow the French (annuity installment, or `P/n` at rate 0) or German
(fixed amortization `P/n`) recurrence with the balance clamped at 0. -/
theorem claim_C1 (principal tae : ℝ) (meses : ℕ) (sistema : Sistema)
    (hP : 0 < principal) (htae : 0 ≤ tae) (hm : 1 ≤ meses) :
    PropC1 principal tae meses sistema := by
  refine ⟨generar_length principal tae meses sistema, ?_, ?_⟩
  · rw [generar_getD_zero]
    exact ⟨rfl, rfl, rfl, rfl, rfl, rfl, rfl, rfl⟩
  · intro i hi1 hi2
    cases sistema with
    | frances =>
        have hget := generar_frances_getD principal tae hi1 hi2
        have hcap := generar_frances_capital principal tae
          (by omega : i - 1 ≤ meses)
        rw [hget, hcap]
        obtain ⟨j, rfl⟩ : ∃ j, i = j + 1 := ⟨i - 1, (Nat.succ_pred_eq_of_pos hi1).symm⟩
        refine ⟨by simp [filaFrances], by simp [filaFrances], rfl, rfl, rfl, ?_, ?_, ?_⟩
        · intro _
          refine ⟨fun hr => ?_, fun hr => ?_, rfl⟩
          · show calcular_cuota_francesa principal (calcular_tipo_mensual tae) meses = _
            unfold calcular_cuota_francesa
            rw [if_neg (ne_of_gt hr)]
          · show calcular_cuota_francesa principal (calcular_tipo_mensual tae) meses = _
            unfold calcular_cuota_francesa
            rw [if_pos hr]
        · intro h; cases h
        · show capitalFrances _ _ _ (j + 1 - 1 + 1) = _
          simp only [Nat.add_sub_cancel, capitalFrances, clampCapital]
          rfl
    | aleman =>
        have hget := generar_aleman_getD principal tae hi1 hi2
        have hcap := generar_aleman_capital principal tae
          (by omega : i - 1 ≤ meses)
        rw [hget, hcap]
        obtain ⟨j, rfl⟩ : ∃ j, i = j + 1 := ⟨i - 1, (Nat.succ_pred_eq_of_pos hi1).symm⟩
        refine ⟨by simp [filaAleman], by simp [filaAleman], rfl, rfl, rfl, ?_, ?_, ?_⟩
        · intro h; cases h
        · intro _
          exact ⟨rfl, rfl⟩
        · show capitalAleman _ _ (j + 1 - 1 + 1) = _
          simp only [Nat.add_sub_cancel, capitalAleman, clampCapital]
          have : (filaAleman (principal / (meses : ℝ)) (calcular_tipo_mensual tae)
              principal 0 (j + 1)).amortizacion = principal / (meses : ℝ) := rfl
          rw [this]

/-- Witness instantiating claim C1. -/
theorem claim_C1_witness : PropC1 1000 0 2 Sistema.frances :=
  claim_C1 1000 0 2 Sistema.frances (by norm_num) le_rfl (by omega)

/-!  ### Positive-balance branches of the applier  -/

theorem aplicar_cuota_frances_pos {cuadro : List Fila} {cantidad : ℝ} {a m : ℕ}
    {tae : ℝ} {an : ℕ} {pp pc : ℝ} {idx : ℕ}
    (hfind : buscarFila cuadro a m = some idx) (h1 : 1 ≤ idx)
    (hpos : 0 < (cuadro.getD idx filaDefecto).capital_pendiente -
      (cantidad - cantidad * (pc / 100))) :
    aplicar_amortizacion_parcial cuadro cantidad a m tae Modo.cuota an pp pc
        Sistema.frances =
      ((cuadro.set idx
        (filaActualizada (cuadro.getD idx filaDefecto) (cantidad - cantidad * (pc / 100))
          (cantidad * (pc / 100))
          ((cuadro.getD idx filaDefecto).capital_pendiente -
            (cantidad - cantidad * (pc / 100))))).take (idx + 1)) ++
        filasFrances
          (calcular_cuota_francesa
            ((cuadro.getD idx filaDefecto).capital_pendiente -
              (cantidad - cantidad * (pc / 100)))
            (calcular_tipo_mensual tae) (cuadro.length - idx - 1))
          (calcular_tipo_mensual tae)
          ((cuadro.getD idx filaDefecto).capital_pendiente -
            (cantidad - cantidad * (pc / 100)))
          ((a - 1) * 12 + m) (cuadro.length - idx - 1) := by
  unfold aplicar_amortizacion_parcial
  rw [hfind]
  simp only [if_neg (by omega : ¬ idx < 1), if_neg (not_lt_of_gt hpos),
    if_neg (ne_of_gt hpos)]
  rfl

theorem aplicar_cuota_aleman_pos {cuadro : List Fila} {cantidad : ℝ} {a m : ℕ}
    {tae : ℝ} {an : ℕ} {pp pc : ℝ} {idx : ℕ}
    (hfind : buscarFila cuadro a m = some idx) (h1 : 1 ≤ idx)
    (hpos : 0 < (cuadro.getD idx filaDefecto).capital_pendiente -
      (cantidad - cantidad * (pc / 100))) :
    aplicar_amortizacion_parcial cuadro cantidad a m tae Modo.cuota an pp pc
        Sistema.aleman =
      ((cuadro.set idx
        (filaActualizada (cuadro.getD idx filaDefecto) (cantidad - cantidad * (pc / 100))
          (cantidad * (pc / 100))
          ((cuadro.getD idx filaDefecto).capital_pendiente -
            (cantidad - cantidad * (pc / 100))))).take (idx + 1)) ++
        filasAleman
          (((cuadro.getD idx filaDefecto).capital_pendiente -
              (cantidad - cantidad * (pc / 100))) / ((cuadro.length - idx - 1 : ℕ) : ℝ))
          (calcular_tipo_mensual tae)
          ((cuadro.getD idx filaDefecto).capital_pendiente -
            (cantidad - cantidad * (pc / 100)))
          ((a - 1) * 12 + m) (cuadro.length - idx - 1) := by
  unfold aplicar_amortizacion_parcial
  rw [hfind]
  simp only [if_neg (by omega : ¬ idx < 1), if_neg (not_lt_of_gt hpos),
    if_neg (ne_of_gt hpos)]
  rfl

theorem aplicar_plazo_pos {cuadro : List Fila} {cantidad : ℝ} {a m : ℕ}
    {tae : ℝ} {an : ℕ} {pp pc : ℝ} {s : Sistema} {idx : ℕ}
    (hfind : buscarFila cuadro a m = some idx) (h1 : 1 ≤ idx)
    (hpos : 0 < (cuadro.getD idx filaDefecto).capital_pendiente -
      (cantidad - cantidad * (pc / 100))) :
    aplicar_amortizacion_parcial cuadro cantidad a m tae Modo.plazo an pp pc s =
      ((cuadro.set idx
        (filaActualizada (cuadro.getD idx filaDefecto) (cantidad - cantidad * (pc / 100))
          (cantidad * (pc / 100))
          ((cuadro.getD idx filaDefecto).capital_pendiente -
            (cantidad - cantidad * (pc / 100))))).take (idx + 1)) ++
        filasPlazo (cuadro.getD idx filaDefecto).cuota (calcular_tipo_mensual tae)
          ((a - 1) * 12 + m)
          ((cuadro.getD idx filaDefecto).capital_pendiente -
            (cantidad - cantidad * (pc / 100)))
          1 1000 := by
  unfold aplicar_amortizacion_parcial
  rw [hfind]
  simp only [if_neg (by omega : ¬ idx < 1), if_neg (not_lt_of_gt hpos),
    if_neg (ne_of_gt hpos)]
  rfl

/-!  ### Step equations of the `plazo` loop  -/

theorem filasPlazo_alto {co r : ℝ} {mg : ℕ} {c : ℝ} {cont fuel : ℕ}
    (h : c ≤ 0.01) : filasPlazo co r mg c cont (fuel + 1) = [] := by
  rw [filasPlazo]
  exact if_pos h

theorem filasPlazo_tope {co r : ℝ} {mg : ℕ} {c : ℝ} {cont fuel : ℕ}
    (h : ¬ c ≤ 0.01) (hcap : c ≤ co - c * r) :
    filasPlazo co r mg c cont (fuel + 1) =
      [{ anio := (mg + cont - 1) / 12 + 1
         mes := (mg + cont - 1) % 12 + 1
         cuota := c + c * r
         interes := c * r
         amortizacion := c
         capital_pendiente := 0
         amortizacion_anticipada := 0
         comision := 0 }] := by
  rw [filasPlazo]
  rw [if_neg h]
  simp only [if_pos hcap]

theorem filasPlazo_paso {co r : ℝ} {mg : ℕ} {c : ℝ} {cont fuel : ℕ}
    (h : ¬ c ≤ 0.01) (hcap : ¬ c ≤ co - c * r) :
    filasPlazo co r mg c cont (fuel + 1) =
      { anio := (mg + cont - 1) / 12 + 1
        mes := (mg + cont - 1) % 12 + 1
        cuota := co
        interes := c * r
        amortizacion := co - c * r
        capital_pendiente := c - (co - c * r)
        amortizacion_anticipada := 0
        comision := 0 } ::
        filasPlazo co r mg (c - (co - c * r)) (cont + 1) fuel := by
  rw [filasPlazo]
  rw [if_neg h]
  simp only [if_neg hcap]

theorem filasPlazo_length_le (co r : ℝ) (mg : ℕ) :
    ∀ (fuel : ℕ) (c : ℝ) (cont : ℕ), (filasPlazo co r mg c cont fuel).length ≤ fuel := by
  intro fuel
  induction fuel with
  | zero => intro c cont; rw [filasPlazo]; exact Nat.le_refl 0
  | succ n ih =>
      intro c cont
      by_cases h : c ≤ 0.01
      · rw [filasPlazo_alto h]; simp
      · by_cases hcap : c ≤ co - c * r
        · rw [filasPlazo_tope h hcap]; simp
        · rw [filasPlazo_paso h hcap]
          simpa using Nat.succ_le_succ (ih (c - (co - c * r)) (cont + 1))

/-- Reading a regenerated row (`k ≥ 1` rows past the event row) out of the
applier's result. -/
theorem getD_append_regen (cuadro resto : List Fila) (idx k : ℕ) (F : Fila)
    (hidx : idx < cuadro.length) (hk : 1 ≤ k) :
    (((cuadro.set idx F).take (idx + 1)) ++ resto).getD (idx + k) filaDefecto =
      resto.getD (k - 1) filaDefecto := by
  have hlen : ((cuadro.set idx F).take (idx + 1)).length = idx + 1 :=
    length_take_set cuadro idx F hidx
  rw [List.getD_eq_getElem?_getD,
    List.getElem?_append_right (by rw [hlen]; omega), hlen]
  have harith : idx + k - (idx + 1) = k - 1 := by omega
  rw [harith, ← List.getD_eq_getElem?_getD]

/-!  ### Claim C3  -/

/-- Statement of (amended) claim C3: with a positive post-prepayment balance,
installment mode regenerates exactly `meses_restantes` rows by the generation
algorithm over the new balance (French annuity or German fixed amortization),
continuing the global month sequence; term mode appends the rows of the
fixed-installment loop seeded with the event row's installment, whose steps
pay interest `c·r`, amortize `installment − interest`, cap the amortization at
the remaining balance (installment = amortization + interest, balance 0), and
stop as soon as the balance is ≤ 0.01. -/
def PropC3 (cuadro : List Fila) (cantidad : ℝ) (a m : ℕ) (tae : ℝ) (an : ℕ)
    (pp pc : ℝ) (idx : ℕ) : Prop :=
  let r := calcular_tipo_mensual tae
  let fila := cuadro.getD idx filaDefecto
  let fee := cantidad * (pc / 100)
  let neta := cantidad - fee
  let nuevo := fila.capital_pendiente - neta
  let mes_global := (a - 1) * 12 + m
  let prefijo := (cuadro.set idx (filaActualizada fila neta fee nuevo)).take (idx + 1)
  let meses_restantes := cuadro.length - idx - 1
  (aplicar_amortizacion_parcial cuadro cantidad a m tae Modo.cuota an pp pc
      Sistema.frances =
    prefijo ++ filasFrances (calcular_cuota_francesa nuevo r meses_restantes) r nuevo
      mes_global meses_restantes) ∧
  (aplicar_amortizacion_parcial cuadro cantidad a m tae Modo.cuota an pp pc
      Sistema.aleman =
    prefijo ++ filasAleman (nuevo / ((meses_restantes : ℕ) : ℝ)) r nuevo mes_global
      meses_restantes) ∧
  (∀ s : Sistema,
    (aplicar_amortizacion_parcial cuadro cantidad a m tae Modo.cuota an pp pc s).length =
      idx + 1 + meses_restantes) ∧
  (∀ (s : Sistema) (k : ℕ), 1 ≤ k → k ≤ meses_restantes →
    ((aplicar_amortizacion_parcial cuadro cantidad a m tae Modo.cuota an pp pc s).getD
        (idx + k) filaDefecto).anio = (mes_global + k - 1) / 12 + 1 ∧
    ((aplicar_amortizacion_parcial cuadro cantidad a m tae Modo.cuota an pp pc s).getD
        (idx + k) filaDefecto).mes = (mes_global + k - 1) % 12 + 1) ∧
  (∀ s : Sistema,
    aplicar_amortizacion_parcial cuadro cantidad a m tae Modo.plazo an pp pc s =
      prefijo ++ filasPlazo fila.cuota r mes_global nuevo 1 1000) ∧
  (∀ (c : ℝ) (cont fuel : ℕ), c ≤ 0.01 →
    filasPlazo fila.cuota r mes_global c cont (fuel + 1) = []) ∧
  (∀ (c : ℝ) (cont fuel : ℕ), ¬ c ≤ 0.01 → c ≤ fila.cuota - c * r →
    filasPlazo fila.cuota r mes_global c cont (fuel + 1) =
      [{ anio := (mes_global + cont - 1) / 12 + 1
         mes := (mes_global + cont - 1) % 12 + 1
         cuota := c + c * r
         interes := c * r
         amortizacion := c
         capital_pendiente := 0
         amortizacion_anticipada := 0
         comision := 0 }]) ∧
  (∀ (c : ℝ) (cont fuel : ℕ), ¬ c ≤ 0.01 → ¬ c ≤ fila.cuota - c * r →
    filasPlazo fila.cuota r mes_global c cont (fuel + 1) =
      { anio := (mes_global + cont - 1) / 12 + 1
        mes := (mes_global + cont - 1) % 12 + 1
        cuota := fila.cuota
        interes := c * r
        amortizacion := fila.cuota - c * r
        capital_pendiente := c - (fila.cuota - c * r)
        amortizacion_anticipada := 0
        comision := 0 } ::
        filasPlazo fila.cuota r mes_global (c - (fila.cuota - c * r)) (cont + 1) fuel)

/-- Claim C3 (amended): the claim's description of both re-amortization modes,
except that the term-mode loop stops as soon as the balance falls to 0.01 or
below — exactly 0 when the amortization cap triggers, possibly a positive
residual ≤ 0.01 otherwise — rather than always "when the balance reaches
zero". -/
theorem claim_C3 (cuadro : List Fila) (cantidad : ℝ) (a m : ℕ) (tae : ℝ) (an : ℕ)
    (pp pc : ℝ) (idx : ℕ)
    (hfind : buscarFila cuadro a m = some idx) (h1 : 1 ≤ idx)
    (hpos : 0 < (cuadro.getD idx filaDefecto).capital_pendiente -
      (cantidad - cantidad * (pc / 100))) :
    PropC3 cuadro cantidad a m tae an pp pc idx := by
  have hlen : idx < cuadro.length := buscarFila_lt_length hfind
  refine ⟨aplicar_cuota_frances_pos hfind h1 hpos,
    aplicar_cuota_aleman_pos hfind h1 hpos, ?_, ?_,
    fun s => aplicar_plazo_pos hfind h1 hpos,
    fun c cont fuel h => filasPlazo_alto h,
    fun c cont fuel h hcap => filasPlazo_tope h hcap,
    fun c cont fuel h hcap => filasPlazo_paso h hcap⟩
  · intro s
    cases s with
    | frances =>
        rw [aplicar_cuota_frances_pos hfind h1 hpos]
        simp [filasFrances, length_take_set cuadro idx _ hlen]
    | aleman =>
        rw [aplicar_cuota_aleman_pos hfind h1 hpos]
        simp [filasAleman, length_take_set cuadro idx _ hlen]
  · intro s k hk1 hk2
    have hk1' : k - 1 < cuadro.length - idx - 1 := by omega
    have hk : k - 1 + 1 = k := by omega
    cases s with
    | frances =>
        rw [aplicar_cuota_frances_pos hfind h1 hpos,
          getD_append_regen cuadro _ idx k _ hlen hk1,
          filasFrances_getD _ _ _ _ hk1', hk]
        exact ⟨rfl, rfl⟩
    | aleman =>
        rw [aplicar_cuota_aleman_pos hfind h1 hpos,
          getD_append_regen cuadro _ idx k _ hlen hk1,
          filasAleman_getD _ _ _ _ hk1', hk]
        exact ⟨rfl, rfl⟩

/-- Witness instantiating the amended claim C3 on a two-row table. -/
theorem claim_C3_witness :
    PropC3 [filaInicial 100, filaPrueba] 10 1 1 0 0 0 0 1 :=
  claim_C3 [filaInicial 100, filaPrueba] 10 1 1 0 0 0 0 1 (by decide) (by decide)
    (by norm_num [filaPrueba, filaDefecto])

/-- Row used by the counterexample to claim C3 as frozen: installment 1,
outstanding balance 10. -/
noncomputable def filaPlazoCE : Fila :=
  { anio := 1, mes := 1, cuota := 1, interes := 0, amortizacion := 1,
    capital_pendiente := 10, amortizacion_anticipada := 0, comision := 0 }

/-- Counterexample to claim C3 as stated: a term-mode prepayment leaving
balance 1.005 against installment 1 regenerates a single row (no cap) and the
loop stops with terminal balance 0.005, which is not zero — the regeneration
does not stop "when the balance reaches zero". -/
theorem claim_C3_counterexample :
    ((aplicar_amortizacion_parcial [filaInicial 10, filaPlazoCE] 8.995 1 1 0 Modo.plazo
        0 0 0 Sistema.frances).getD 2 filaDefecto).capital_pendiente ≠ 0 ∧
    (aplicar_amortizacion_parcial [filaInicial 10, filaPlazoCE] 8.995 1 1 0 Modo.plazo
        0 0 0 Sistema.frances).length = 3 := by
  have hr : calcular_tipo_mensual 0 = 0 := by
    unfold calcular_tipo_mensual
    norm_num
  have hfind : buscarFila [filaInicial 10, filaPlazoCE] 1 1 = some 1 := by decide
  have hpos : (0 : ℝ) <
      (([filaInicial 10, filaPlazoCE].getD 1 filaDefecto)).capital_pendiente -
        (8.995 - 8.995 * ((0 : ℝ) / 100)) := by
    norm_num [filaPlazoCE]
  have h2 := @aplicar_plazo_pos [filaInicial 10, filaPlazoCE] 8.995 1 1 0 0 0 0
    Sistema.frances 1 hfind (by omega) hpos
  have hq : (([filaInicial 10, filaPlazoCE].getD 1 filaDefecto)).cuota = 1 := by
    norm_num [filaPlazoCE]
  have hcval : (([filaInicial 10, filaPlazoCE].getD 1 filaDefecto)).capital_pendiente -
      (8.995 - 8.995 * ((0 : ℝ) / 100)) = 1.005 := by
    norm_num [filaPlazoCE]
  rw [hr, hq, hcval] at h2
  have hmg : (1 - 1) * 12 + 1 = 1 := by norm_num
  rw [hmg] at h2
  have hl1 : filasPlazo 1 0 1 1.005 1 1000 =
      { anio := (1 + 1 - 1) / 12 + 1
        mes := (1 + 1 - 1) % 12 + 1
        cuota := 1
        interes := 1.005 * 0
        amortizacion := 1 - 1.005 * 0
        capital_pendiente := 1.005 - (1 - 1.005 * 0)
        amortizacion_anticipada := 0
        comision := 0 } :: filasPlazo 1 0 1 (1.005 - (1 - 1.005 * 0)) 2 999 := by
    rw [show (1000 : ℕ) = 999 + 1 from rfl]
    exact filasPlazo_paso (by norm_num) (by norm_num)
  have hl2 : filasPlazo 1 0 1 (1.005 - (1 - 1.005 * 0)) 2 999 = [] := by
    rw [show (999 : ℕ) = 998 + 1 from rfl]
    exact filasPlazo_alto (by norm_num)
  rw [hl1, hl2] at h2
  rw [h2]
  constructor
  · rw [show (2 : ℕ) = 1 + 1 from rfl,
      getD_append_regen [filaInicial 10, filaPlazoCE] _ 1 1 _ (by decide) le_rfl]
    norm_num
  · rw [List.length_append,
      length_take_set [filaInicial 10, filaPlazoCE] 1 _ (by decide)]
    rfl

/-!  ### Claim C4  -/

/-- A `plazo` loop with installment 0 and rate 0 never advances: it emits
`fuel` rows, each carrying the unchanged balance. -/
theorem filasPlazo_cuota_cero (mg : ℕ) :
    ∀ (fuel cont : ℕ) (c : ℝ), ¬ c ≤ 0.01 →
      (filasPlazo 0 0 mg c cont fuel).length = fuel ∧
      ∀ k, k < fuel →
        ((filasPlazo 0 0 mg c cont fuel).getD k filaDefecto).capital_pendiente = c := by
  intro fuel
  induction fuel with
  | zero =>
      intro cont c hc
      rw [filasPlazo]
      exact ⟨rfl, fun k hk => absurd hk (by omega)⟩
  | succ n ih =>
      intro cont c hc
      have hcap : ¬ c ≤ 0 - c * 0 := by
        intro h
        apply hc
        nlinarith
      rw [filasPlazo_paso hc hcap]
      have hcc : c - (0 - c * 0) = c := by ring
      rw [hcc]
      obtain ⟨ihlen, ihcap⟩ := ih (cont + 1) c hc
      refine ⟨by simpa using ihlen, ?_⟩
      intro k hk
      cases k with
      | zero => rfl
      | succ k =>
          rw [List.getD_cons_succ]
          exact ihcap k (by omega)

/-- Statement of (amended) claim C4: the term-mode loop runs only while the
balance exceeds 0.01 and emits at most 1000 rows; when the ceiling is reached
the loop simply stops, and the applier returns the prefix plus the (possibly
non-amortized) regenerated rows as its ordinary result. -/
def PropC4 (cuadro : List Fila) (cantidad : ℝ) (a m : ℕ) (tae : ℝ) (an : ℕ)
    (pp pc : ℝ) (s : Sistema) (idx : ℕ) : Prop :=
  let r := calcular_tipo_mensual tae
  let fila := cuadro.getD idx filaDefecto
  let neta := cantidad - cantidad * (pc / 100)
  let nuevo := fila.capital_pendiente - neta
  let mes_global := (a - 1) * 12 + m
  (∀ (c : ℝ) (cont fuel : ℕ), c ≤ 0.01 →
    filasPlazo fila.cuota r mes_global c cont (fuel + 1) = []) ∧
  (∀ (c : ℝ) (cont : ℕ) (fuel : ℕ),
    (filasPlazo fila.cuota r mes_global c cont fuel).length ≤ fuel) ∧
  (aplicar_amortizacion_parcial cuadro cantidad a m tae Modo.plazo an pp pc s =
    ((cuadro.set idx (filaActualizada fila neta (cantidad * (pc / 100)) nuevo)).take
        (idx + 1)) ++
      filasPlazo fila.cuota r mes_global nuevo 1 1000)

/-- Claim C4 (amended): the term-mode regeneration loop iterates only while the
balance exceeds 0.01, under a defensive ceiling of 1000 regenerated rows;
reaching the ceiling without payoff silently ends the loop, and the truncated
schedule — whose terminal balance may be far from zero — is returned as the
applier's ordinary result, with no failure report. -/
theorem claim_C4 (cuadro : List Fila) (cantidad : ℝ) (a m : ℕ) (tae : ℝ) (an : ℕ)
    (pp pc : ℝ) (s : Sistema) (idx : ℕ)
    (hfind : buscarFila cuadro a m = some idx) (h1 : 1 ≤ idx)
    (hpos : 0 < (cuadro.getD idx filaDefecto).capital_pendiente -
      (cantidad - cantidad * (pc / 100))) :
    PropC4 cuadro cantidad a m tae an pp pc s idx :=
  ⟨fun c cont fuel h => filasPlazo_alto h,
   fun c cont fuel => filasPlazo_length_le _ _ _ fuel c cont,
   aplicar_plazo_pos hfind h1 hpos⟩

/-- Witness instantiating the amended claim C4. -/
theorem claim_C4_witness :
    PropC4 [filaInicial 100, filaPrueba] 10 1 1 0 0 0 0 Sistema.frances 1 :=
  claim_C4 [filaInicial 100, filaPrueba] 10 1 1 0 0 0 0 Sistema.frances 1
    (by decide) (by decide) (by norm_num [filaPrueba, filaDefecto])

/-- Row used by the counterexample to claim C4 as frozen: installment 0,
outstanding balance 100. -/
noncomputable def filaTopeCE : Fila :=
  { anio := 1, mes := 1, cuota := 0, interes := 0, amortizacion := 0,
    capital_pendiente := 100, amortizacion_anticipada := 0, comision := 0 }

/-- Counterexample to claim C4 as stated: with installment 0 and rate 0 the
term-mode loop never converges; after 1000 regenerated rows the applier
returns, as an ordinary complete result, a 1002-row schedule whose terminal
balance is 50 — far outside any rounding tolerance of zero and with no failure
reported. -/
theorem claim_C4_counterexample :
    (aplicar_amortizacion_parcial [filaInicial 100, filaTopeCE] 50 1 1 0 Modo.plazo
        0 0 0 Sistema.frances).length = 1002 ∧
    ((aplicar_amortizacion_parcial [filaInicial 100, filaTopeCE] 50 1 1 0 Modo.plazo
        0 0 0 Sistema.frances).getD 1001 filaDefecto).capital_pendiente = 50 := by
  have hr : calcular_tipo_mensual 0 = 0 := by
    unfold calcular_tipo_mensual
    norm_num
  have hfind : buscarFila [filaInicial 100, filaTopeCE] 1 1 = some 1 := by decide
  have hpos : (0 : ℝ) <
      (([filaInicial 100, filaTopeCE].getD 1 filaDefecto)).capital_pendiente -
        (50 - 50 * ((0 : ℝ) / 100)) := by
    norm_num [filaTopeCE]
  have h2 := @aplicar_plazo_pos [filaInicial 100, filaTopeCE] 50 1 1 0 0 0 0
    Sistema.frances 1 hfind (by omega) hpos
  have hq : (([filaInicial 100, filaTopeCE].getD 1 filaDefecto)).cuota = 0 := by
    norm_num [filaTopeCE]
  have hcval : (([filaInicial 100, filaTopeCE].getD 1 filaDefecto)).capital_pendiente -
      (50 - 50 * ((0 : ℝ) / 100)) = 50 := by
    norm_num [filaTopeCE]
  rw [hr, hq, hcval] at h2
  obtain ⟨hlen1000, hcap1000⟩ :=
    filasPlazo_cuota_cero ((1 - 1) * 12 + 1) 1000 1 (50 : ℝ) (by norm_num)
  rw [h2]
  constructor
  · rw [List.length_append,
      length_take_set [filaInicial 100, filaTopeCE] 1 _ (by decide), hlen1000]
  · rw [show (1001 : ℕ) = 1 + 1000 from rfl,
      getD_append_regen [filaInicial 100, filaTopeCE] _ 1 1000 _ (by decide) (by omega)]
    exact hcap1000 999 (by omega)

/-!  ### Sign of the monthly rate  -/

theorem tipo_mensual_pos {tae : ℝ} (h : 0 < tae) : 0 < calcular_tipo_mensual tae := by
  unfold calcular_tipo_mensual
  have hx : (0 : ℝ) < 1 + tae / 100 := by linarith
  have h1 : (1 : ℝ) < (1 + tae / 100) ^ ((1 : ℝ) / 12) :=
    (Real.one_lt_rpow_iff_of_pos hx).mpr (Or.inl ⟨by linarith, by norm_num⟩)
  linarith

theorem tipo_mensual_nonneg {tae : ℝ} (h : 0 ≤ tae) : 0 ≤ calcular_tipo_mensual tae := by
  unfold calcular_tipo_mensual
  have h1 : (1 : ℝ) ≤ (1 + tae / 100) ^ ((1 : ℝ) / 12) :=
    Real.one_le_rpow (by linarith) (by norm_num)
  linarith

/-!  ### Closed form of the French balance  -/

theorem cuota_francesa_eq (P r : ℝ) (n : ℕ) (hr : r ≠ 0) :
    calcular_cuota_francesa P r n = P * (r * (1 + r) ^ n) / ((1 + r) ^ n - 1) := by
  unfold calcular_cuota_francesa
  rw [if_neg hr]

theorem capitalFrances_succ (c r P : ℝ) (i : ℕ) :
    capitalFrances c r P (i + 1) =
      clampCapital (capitalFrances c r P i - (c - capitalFrances c r P i * r)) := by
  rw [capitalFrances]

theorem capitalFrances_formula (P r : ℝ) (n : ℕ) (hP : 0 < P) (hr : 0 < r)
    (hn : 1 ≤ n) :
    ∀ i, i ≤ n →
      capitalFrances (calcular_cuota_francesa P r n) r P i =
        P * (1 + r) ^ n / ((1 + r) ^ n - 1) -
          P / ((1 + r) ^ n - 1) * (1 + r) ^ i := by
  have hF : 1 < (1 + r) ^ n := one_lt_pow₀ (by linarith) (by omega)
  have hF0 : (1 + r) ^ n - 1 ≠ 0 := ne_of_gt (by linarith)
  have hc : calcular_cuota_francesa P r n =
      P * (1 + r) ^ n / ((1 + r) ^ n - 1) * r := by
    rw [cuota_francesa_eq P r n (ne_of_gt hr)]
    field_simp
    ring
  intro i
  induction i with
  | zero =>
      intro _
      show P = _
      rw [pow_zero]
      field_simp
      ring
  | succ i ih =>
      intro hin
      have hbi := ih (by omega)
      rw [capitalFrances_succ, hbi, hc]
      have hpre :
          P * (1 + r) ^ n / ((1 + r) ^ n - 1) -
              P / ((1 + r) ^ n - 1) * (1 + r) ^ i -
            (P * (1 + r) ^ n / ((1 + r) ^ n - 1) * r -
              (P * (1 + r) ^ n / ((1 + r) ^ n - 1) -
                P / ((1 + r) ^ n - 1) * (1 + r) ^ i) * r) =
          P * (1 + r) ^ n / ((1 + r) ^ n - 1) -
            P / ((1 + r) ^ n - 1) * (1 + r) ^ (i + 1) := by
        ring
      rw [hpre]
      have hD : 0 ≤ P / ((1 + r) ^ n - 1) := div_nonneg (le_of_lt hP) (by linarith)
      have hmono : (1 + r) ^ (i + 1) ≤ (1 + r) ^ n :=
        pow_le_pow_right₀ (by linarith) hin
      have hzero : P * (1 + r) ^ n / ((1 + r) ^ n - 1) -
          P / ((1 + r) ^ n - 1) * (1 + r) ^ n = 0 := by
        field_simp
      have hnn : 0 ≤ P * (1 + r) ^ n / ((1 + r) ^ n - 1) -
          P / ((1 + r) ^ n - 1) * (1 + r) ^ (i + 1) := by
        have := mul_le_mul_of_nonneg_left hmono hD
        linarith
      unfold clampCapital
      rw [if_neg (not_lt.mpr hnn)]

/-- With a positive rate the French clamp never fires: the balance follows the
plain recurrence at every step. -/
theorem capitalFrances_noclamp (P r : ℝ) (n : ℕ) (hP : 0 < P) (hr : 0 < r)
    (hn : 1 ≤ n) :
    ∀ k, k < n →
      capitalFrances (calcular_cuota_francesa P r n) r P (k + 1) =
        capitalFrances (calcular_cuota_francesa P r n) r P k -
          (calcular_cuota_francesa P r n -
            capitalFrances (calcular_cuota_francesa P r n) r P k * r) := by
  have hF : 1 < (1 + r) ^ n := one_lt_pow₀ (by linarith) (by omega)
  have hF0 : (1 + r) ^ n - 1 ≠ 0 := ne_of_gt (by linarith)
  have hc : calcular_cuota_francesa P r n =
      P * (1 + r) ^ n / ((1 + r) ^ n - 1) * r := by
    rw [cuota_francesa_eq P r n (ne_of_gt hr)]
    field_simp
    ring
  intro k hk
  rw [capitalFrances_formula P r n hP hr hn (k + 1) (by omega),
    capitalFrances_formula P r n hP hr hn k (by omega), hc]
  ring

theorem capitalFrances_final (P r : ℝ) (n : ℕ) (hP : 0 < P) (hr : 0 < r)
    (hn : 1 ≤ n) :
    capitalFrances (calcular_cuota_francesa P r n) r P n = 0 := by
  have hF : 1 < (1 + r) ^ n := one_lt_pow₀ (by linarith) (by omega)
  have hF0 : (1 + r) ^ n - 1 ≠ 0 := ne_of_gt (by linarith)
  rw [capitalFrances_formula P r n hP hr hn n le_rfl]
  field_simp

/-- Telescoping sum of the French amortization column in the clamp-free
regime. -/
theorem filasFrances_sum_amort (c r P : ℝ) (mes0 : ℕ) :
    ∀ m : ℕ,
      (∀ k, k < m → capitalFrances c r P (k + 1) =
        capitalFrances c r P k - (c - capitalFrances c r P k * r)) →
      ((filasFrances c r P mes0 m).map Fila.amortizacion).sum =
        P - capitalFrances c r P m := by
  intro m
  induction m with
  | zero =>
      intro _
      show (0 : ℝ) = P - P
      ring
  | succ m ih =>
      intro h
      have hm := h m (by omega)
      unfold filasFrances
      rw [List.range_succ, List.map_append, List.map_append, List.sum_append]
      have hprev := ih (fun k hk => h k (by omega))
      unfold filasFrances at hprev
      rw [hprev]
      simp only [List.map_cons, List.map_nil, List.sum_cons, List.sum_nil]
      rw [hm]
      show P - capitalFrances c r P m +
          ((filaFrances c r P mes0 (m + 1)).amortizacion + 0) = _
      show P - capitalFrances c r P m + ((c - capitalFrances c r P m * r) + 0) = _
      ring

/-!  ### Closed form of the German balance  -/

theorem capitalAleman_succ (A P : ℝ) (i : ℕ) :
    capitalAleman A P (i + 1) = clampCapital (capitalAleman A P i - A) := by
  rw [capitalAleman]

theorem capitalAleman_formula (P : ℝ) (n : ℕ) (hP : 0 < P) (hn : 1 ≤ n) :
    ∀ i, i ≤ n →
      capitalAleman (P / (n : ℝ)) P i = P - (i : ℝ) * (P / (n : ℝ)) := by
  have hn0 : ((n : ℝ)) ≠ 0 := Nat.cast_ne_zero.mpr (by omega)
  intro i
  induction i with
  | zero =>
      intro _
      show P = _
      push_cast
      ring
  | succ i ih =>
      intro hin
      rw [capitalAleman_succ, ih (by omega)]
      have hcast : ((i : ℝ) + 1) ≤ (n : ℝ) := by
        have := (Nat.cast_le (α := ℝ)).mpr hin
        push_cast at this
        linarith
      have hnn : 0 ≤ P - ((i : ℝ) + 1) * (P / (n : ℝ)) := by
        have h1 : ((i : ℝ) + 1) * (P / (n : ℝ)) ≤ (n : ℝ) * (P / (n : ℝ)) :=
          mul_le_mul_of_nonneg_right hcast (by positivity)
        have h2 : (n : ℝ) * (P / (n : ℝ)) = P := by field_simp
        linarith
      unfold clampCapital
      rw [if_neg (not_lt.mpr (by push_cast; linarith))]
      push_cast
      ring

/-- The German amortization column is constant, so its sum is `m·A`. -/
theorem filasAleman_sum_amort (A r P : ℝ) (mes0 : ℕ) (m : ℕ) :
    ((filasAleman A r P mes0 m).map Fila.amortizacion).sum = (m : ℝ) * A := by
  induction m with
  | zero => simp [filasAleman]
  | succ m ih =>
      unfold filasAleman
      rw [List.range_succ, List.map_append, List.map_append, List.sum_append]
      unfold filasAleman at ih
      rw [ih]
      simp only [List.map_cons, List.map_nil, List.sum_cons, List.sum_nil]
      show (m : ℝ) * A + ((filaAleman A r P mes0 (m + 1)).amortizacion + 0) = _
      show (m : ℝ) * A + (A + 0) = _
      push_cast
      ring

/-!  ### Claim C6  -/

/-- Statement of claim C6: with a positive rate and no prepayments, the
scheduled amortizations over rows 1..N sum to the principal within 0.01 and
the final row's balance is exactly 0. -/
def PropC6 (principal tae : ℝ) (meses : ℕ) (sistema : Sistema) : Prop :=
  let cuadro := generar_cuadro_amortizacion principal tae meses sistema
  cuadro.length = meses + 1 ∧
  |((cuadro.drop 1).map Fila.amortizacion).sum - principal| ≤ 0.01 ∧
  (cuadro.getD meses filaDefecto).capital_pendiente = 0

/-- Claim C6: for every loan with positive principal, annual rate > 0 and term
≥ 1, in either system, the sum of the scheduled-amortization portions over
rows 1..N of the generated schedule equals the principal within 0.01, and the
final row's outstanding balance is 0. -/
theorem claim_C6 (principal tae : ℝ) (meses : ℕ) (sistema : Sistema)
    (hP : 0 < principal) (htae : 0 < tae) (hm : 1 ≤ meses) :
    PropC6 principal tae meses sistema := by
  have hr := tipo_mensual_pos htae
  refine ⟨generar_length principal tae meses sistema, ?_, ?_⟩
  · cases sistema with
    | frances =>
        have hdrop :
            (generar_cuadro_amortizacion principal tae meses Sistema.frances).drop 1 =
              filasFrances
                (calcular_cuota_francesa principal (calcular_tipo_mensual tae) meses)
                (calcular_tipo_mensual tae) principal 0 meses := rfl
        rw [hdrop,
          filasFrances_sum_amort _ _ _ _ meses
            (capitalFrances_noclamp principal _ meses hP hr hm),
          capitalFrances_final principal _ meses hP hr hm]
        norm_num
    | aleman =>
        have hdrop :
            (generar_cuadro_amortizacion principal tae meses Sistema.aleman).drop 1 =
              filasAleman (principal / (meses : ℝ)) (calcular_tipo_mensual tae)
                principal 0 meses := rfl
        rw [hdrop, filasAleman_sum_amort]
        have hn0 : ((meses : ℝ)) ≠ 0 := Nat.cast_ne_zero.mpr (by omega)
        have : (meses : ℝ) * (principal / (meses : ℝ)) = principal := by field_simp
        rw [this]
        norm_num
  · cases sistema with
    | frances =>
        rw [generar_frances_capital principal tae (le_refl meses),
          capitalFrances_final principal _ meses hP hr hm]
    | aleman =>
        rw [generar_aleman_capital principal tae (le_refl meses),
          capitalAleman_formula principal meses hP hm meses le_rfl]
        have hn0 : ((meses : ℝ)) ≠ 0 := Nat.cast_ne_zero.mpr (by omega)
        field_simp

/-- Witness instantiating claim C6. -/
theorem claim_C6_witness : PropC6 1000 3 1 Sistema.frances :=
  claim_C6 1000 3 1 Sistema.frances (by norm_num) (by norm_num) (by omega)

/-!  ### Claim C8: invariants  -/

/-- All monetary fields of a row are non-negative (the first half of the §3
row invariant). -/
def FilaNoNegativa (f : Fila) : Prop :=
  0 ≤ f.cuota ∧ 0 ≤ f.interes ∧ 0 ≤ f.amortizacion ∧ 0 ≤ f.capital_pendiente ∧
    0 ≤ f.amortizacion_anticipada ∧ 0 ≤ f.comision

/-- The claim's property: non-negative monetary fields on every row and a
non-increasing outstanding balance across consecutive rows. -/
def CuadroValido (cuadro : List Fila) : Prop :=
  (∀ f ∈ cuadro, FilaNoNegativa f) ∧
    List.Chain' (fun f g => g.capital_pendiente ≤ f.capital_pendiente) cuadro

/-- Pipeline invariant: the claim's property strengthened with the fact that
every row past row 0 has an installment at least covering the interest on its
own remaining balance (which is what makes re-amortization after a prepayment
produce non-negative amortizations). -/
def InvCuadro (r : ℝ) (cuadro : List Fila) : Prop :=
  CuadroValido cuadro ∧
    ∀ f ∈ cuadro.drop 1, f.capital_pendiente * r ≤ f.cuota

theorem clampCapital_nonneg (x : ℝ) : 0 ≤ clampCapital x := by
  unfold clampCapital
  split
  · exact le_rfl
  · exact le_of_not_lt (by assumption)

theorem clampCapital_le {x b : ℝ} (hb : 0 ≤ b) (hx : x ≤ b) : clampCapital x ≤ b := by
  unfold clampCapital
  split
  · exact hb
  · exact hx

theorem capitalFrances_nonneg (c r b0 : ℝ) (hb0 : 0 ≤ b0) :
    ∀ i, 0 ≤ capitalFrances c r b0 i
  | 0 => hb0
  | i + 1 => by rw [capitalFrances_succ]; exact clampCapital_nonneg _

theorem capitalFrances_le_base (c r b0 : ℝ) (hr : 0 ≤ r) (hb0 : 0 ≤ b0)
    (hbr : b0 * r ≤ c) : ∀ i, capitalFrances c r b0 i ≤ b0 := by
  intro i
  induction i with
  | zero => exact le_rfl
  | succ i ih =>
      rw [capitalFrances_succ]
      apply clampCapital_le hb0
      have h2 : capitalFrances c r b0 i * r ≤ b0 * r :=
        mul_le_mul_of_nonneg_right ih hr
      linarith

theorem capitalFrances_mono (c r b0 : ℝ) (hr : 0 ≤ r) (hb0 : 0 ≤ b0)
    (hbr : b0 * r ≤ c) (i : ℕ) :
    capitalFrances c r b0 (i + 1) ≤ capitalFrances c r b0 i := by
  rw [capitalFrances_succ]
  apply clampCapital_le (capitalFrances_nonneg c r b0 hb0 i)
  have h1 := capitalFrances_le_base c r b0 hr hb0 hbr i
  have h2 : capitalFrances c r b0 i * r ≤ b0 * r := mul_le_mul_of_nonneg_right h1 hr
  linarith

/-- The French annuity installment is non-negative and covers the interest on
the principal. -/
theorem cuota_francesa_ge (P r : ℝ) (n : ℕ) (hP : 0 ≤ P) (hr : 0 ≤ r)
    (hn : 1 ≤ n) :
    P * r ≤ calcular_cuota_francesa P r n ∧ 0 ≤ calcular_cuota_francesa P r n := by
  rcases eq_or_lt_of_le hr with hr0 | hr0
  · unfold calcular_cuota_francesa
    rw [if_pos hr0.symm, ← hr0]
    constructor
    · simpa using div_nonneg hP (by positivity)
    · exact div_nonneg hP (by positivity)
  · have hF : 1 < (1 + r) ^ n := one_lt_pow₀ (by linarith) (by omega)
    rw [cuota_francesa_eq P r n (ne_of_gt hr0)]
    have hden : (0 : ℝ) < (1 + r) ^ n - 1 := by linarith
    have hne : ((1 + r) ^ n - 1) ≠ 0 := ne_of_gt hden
    have hdiff : P * (r * (1 + r) ^ n) / ((1 + r) ^ n - 1) - P * r =
        P * r / ((1 + r) ^ n - 1) := by
      field_simp
      ring
    have hnn : 0 ≤ P * r / ((1 + r) ^ n - 1) :=
      div_nonneg (mul_nonneg hP hr) (le_of_lt hden)
    constructor
    · linarith
    · have : 0 ≤ P * r := mul_nonneg hP hr
      linarith

/-- Row invariants of a French-style loop. -/
theorem filasFrances_inv (c r b0 : ℝ) (mes0 m : ℕ) (hr : 0 ≤ r) (hb0 : 0 ≤ b0)
    (hc : 0 ≤ c) (hbr : b0 * r ≤ c) :
    (∀ f ∈ filasFrances c r b0 mes0 m,
      (FilaNoNegativa f ∧ f.capital_pendiente * r ≤ f.cuota) ∧
        f.capital_pendiente ≤ b0) ∧
    List.Chain' (fun f g => g.capital_pendiente ≤ f.capital_pendiente)
      (filasFrances c r b0 mes0 m) := by
  constructor
  · intro f hf
    obtain ⟨k, hk, rfl⟩ : ∃ k, k < m ∧ filaFrances c r b0 mes0 (k + 1) = f := by
      unfold filasFrances at hf
      obtain ⟨k, hk, rfl⟩ := List.mem_map.mp hf
      exact ⟨k, List.mem_range.mp hk, rfl⟩
    have hble := capitalFrances_le_base c r b0 hr hb0 hbr k
    have hble1 := capitalFrances_le_base c r b0 hr hb0 hbr (k + 1)
    have hbnn := capitalFrances_nonneg c r b0 hb0 k
    have hbnn1 := capitalFrances_nonneg c r b0 hb0 (k + 1)
    have hir : capitalFrances c r b0 k * r ≤ b0 * r :=
      mul_le_mul_of_nonneg_right hble hr
    have hir1 : capitalFrances c r b0 (k + 1) * r ≤ b0 * r :=
      mul_le_mul_of_nonneg_right hble1 hr
    refine ⟨⟨⟨hc, mul_nonneg hbnn hr,
      by show 0 ≤ c - capitalFrances c r b0 (k + 1 - 1) * r
         rw [Nat.add_sub_cancel]
         linarith,
      hbnn1, le_rfl, le_rfl⟩, ?_⟩, hble1⟩
    show capitalFrances c r b0 (k + 1) * r ≤ c
    linarith
  · rw [List.chain'_iff_get]
    intro i hi
    simp only [filasFrances, List.get_eq_getElem, List.getElem_map, List.getElem_range]
    exact capitalFrances_mono c r b0 hr hb0 hbr (i + 1)

/-- First regenerated French row does not increase the balance. -/
theorem filasFrances_head (c r b0 : ℝ) (mes0 m : ℕ) (hr : 0 ≤ r) (hb0 : 0 ≤ b0)
    (hbr : b0 * r ≤ c) :
    ∀ f ∈ (filasFrances c r b0 mes0 m).head?, f.capital_pendiente ≤ b0 := by
  cases m with
  | zero => intro f hf; simp [filasFrances] at hf
  | succ m =>
      intro f hf
      have : (filasFrances c r b0 mes0 (m + 1)).head? =
          some (filaFrances c r b0 mes0 1) := by
        unfold filasFrances
        rw [List.range_succ_eq_map]
        rfl
      rw [this] at hf
      simp only [Option.mem_def, Option.some.injEq] at hf
      subst hf
      show capitalFrances c r b0 1 ≤ b0
      exact le_trans (capitalFrances_mono c r b0 hr hb0 hbr 0) le_rfl

theorem capitalAleman_nonneg (A b0 : ℝ) (hb0 : 0 ≤ b0) :
    ∀ i, 0 ≤ capitalAleman A b0 i
  | 0 => hb0
  | i + 1 => by rw [capitalAleman_succ]; exact clampCapital_nonneg _

theorem capitalAleman_mono (A b0 : ℝ) (hA : 0 ≤ A) (hb0 : 0 ≤ b0) (i : ℕ) :
    capitalAleman A b0 (i + 1) ≤ capitalAleman A b0 i := by
  rw [capitalAleman_succ]
  exact clampCapital_le (capitalAleman_nonneg A b0 hb0 i) (by linarith)

theorem capitalAleman_le_base (A b0 : ℝ) (hA : 0 ≤ A) (hb0 : 0 ≤ b0) :
    ∀ i, capitalAleman A b0 i ≤ b0 := by
  intro i
  induction i with
  | zero => exact le_rfl
  | succ i ih => exact le_trans (capitalAleman_mono A b0 hA hb0 i) ih

/-- Row invariants of a German-style loop. -/
theorem filasAleman_inv (A r b0 : ℝ) (mes0 m : ℕ) (hr : 0 ≤ r) (hb0 : 0 ≤ b0)
    (hA : 0 ≤ A) :
    (∀ f ∈ filasAleman A r b0 mes0 m,
      (FilaNoNegativa f ∧ f.capital_pendiente * r ≤ f.cuota) ∧
        f.capital_pendiente ≤ b0) ∧
    List.Chain' (fun f g => g.capital_pendiente ≤ f.capital_pendiente)
      (filasAleman A r b0 mes0 m) := by
  constructor
  · intro f hf
    obtain ⟨k, hk, rfl⟩ : ∃ k, k < m ∧ filaAleman A r b0 mes0 (k + 1) = f := by
      unfold filasAleman at hf
      obtain ⟨k, hk, rfl⟩ := List.mem_map.mp hf
      exact ⟨k, List.mem_range.mp hk, rfl⟩
    have hbnn := capitalAleman_nonneg A b0 hb0 k
    have hbnn1 := capitalAleman_nonneg A b0 hb0 (k + 1)
    have hmono := capitalAleman_mono A b0 hA hb0 k
    have hble1 := capitalAleman_le_base A b0 hA hb0 (k + 1)
    refine ⟨⟨⟨(by
      show 0 ≤ A + capitalAleman A b0 (k + 1 - 1) * r
      rw [Nat.add_sub_cancel]
      have := mul_nonneg hbnn hr
      linarith),
      (by
        show 0 ≤ capitalAleman A b0 (k + 1 - 1) * r
        rw [Nat.add_sub_cancel]
        exact mul_nonneg hbnn hr),
      hA, hbnn1, le_rfl, le_rfl⟩, ?_⟩, hble1⟩
    show capitalAleman A b0 (k + 1) * r ≤
      A + capitalAleman A b0 (k + 1 - 1) * r
    rw [Nat.add_sub_cancel]
    have : capitalAleman A b0 (k + 1) * r ≤ capitalAleman A b0 k * r :=
      mul_le_mul_of_nonneg_right hmono hr
    linarith
  · rw [List.chain'_iff_get]
    intro i hi
    simp only [filasAleman, List.get_eq_getElem, List.getElem_map, List.getElem_range]
    exact capitalAleman_mono A b0 hA hb0 (i + 1)

/-- First regenerated German row does not increase the balance. -/
theorem filasAleman_head (A r b0 : ℝ) (mes0 m : ℕ) (hA : 0 ≤ A) (hb0 : 0 ≤ b0) :
    ∀ f ∈ (filasAleman A r b0 mes0 m).head?, f.capital_pendiente ≤ b0 := by
  cases m with
  | zero => intro f hf; simp [filasAleman] at hf
  | succ m =>
      intro f hf
      have : (filasAleman A r b0 mes0 (m + 1)).head? =
          some (filaAleman A r b0 mes0 1) := by
        unfold filasAleman
        rw [List.range_succ_eq_map]
        rfl
      rw [this] at hf
      simp only [Option.mem_def, Option.some.injEq] at hf
      subst hf
      show capitalAleman A b0 1 ≤ b0
      exact capitalAleman_mono A b0 hA hb0 0

/-- Row invariants of the `plazo` loop. -/
theorem filasPlazo_inv (co r : ℝ) (mg : ℕ) (hr : 0 ≤ r) (hco : 0 ≤ co) :
    ∀ (fuel : ℕ) (c : ℝ) (cont : ℕ), 0 ≤ c → c * r ≤ co →
      (∀ f ∈ filasPlazo co r mg c cont fuel,
        FilaNoNegativa f ∧ f.capital_pendiente * r ≤ f.cuota) ∧
      List.Chain' (fun f g => g.capital_pendiente ≤ f.capital_pendiente)
        (filasPlazo co r mg c cont fuel) ∧
      (∀ f ∈ (filasPlazo co r mg c cont fuel).head?, f.capital_pendiente ≤ c) := by
  intro fuel
  induction fuel with
  | zero =>
      intro c cont _ _
      rw [filasPlazo]
      exact ⟨fun f hf => absurd hf (List.not_mem_nil f), List.chain'_nil, by simp⟩
  | succ n ih =>
      intro c cont hc hcr
      by_cases halto : c ≤ 0.01
      · rw [filasPlazo_alto halto]
        exact ⟨fun f hf => absurd hf (List.not_mem_nil f), List.chain'_nil, by simp⟩
      · have hcir : 0 ≤ c * r := mul_nonneg hc hr
        by_cases hcap : c ≤ co - c * r
        · rw [filasPlazo_tope halto hcap]
          refine ⟨?_, List.chain'_singleton _, ?_⟩
          · intro f hf
            rw [List.mem_singleton] at hf
            subst hf
            exact ⟨⟨by show 0 ≤ c + c * r; linarith, hcir, hc, le_rfl, le_rfl, le_rfl⟩,
              by show (0 : ℝ) * r ≤ c + c * r; rw [zero_mul]; linarith⟩
          · intro f hf
            simp only [List.head?_cons, Option.mem_def, Option.some.injEq] at hf
            subst hf
            exact hc
        · have hpos : 0 ≤ c - (co - c * r) := by
            push_neg at hcap
            linarith
          have hle : c - (co - c * r) ≤ c := by linarith
          have hcr' : (c - (co - c * r)) * r ≤ co :=
            le_trans (mul_le_mul_of_nonneg_right hle hr) hcr
          obtain ⟨ihmem, ihchain, ihhead⟩ := ih (c - (co - c * r)) (cont + 1) hpos hcr'
          rw [filasPlazo_paso halto hcap]
          refine ⟨?_, ?_, ?_⟩
          · intro f hf
            rcases List.mem_cons.mp hf with rfl | hf
            · refine ⟨⟨hco, hcir, by show 0 ≤ co - c * r; linarith, hpos, le_rfl,
                le_rfl⟩, ?_⟩
              show (c - (co - c * r)) * r ≤ co
              exact hcr'
            · exact ihmem f hf
          · rw [List.chain'_cons']
            exact ⟨fun y hy => ihhead y hy, ihchain⟩
          · intro f hf
            simp only [List.head?_cons, Option.mem_def, Option.some.injEq] at hf
            subst hf
            exact hle

/-!  ### Glue lemmas for the applier's result shape  -/

theorem aplicar_none {cuadro : List Fila} {cantidad : ℝ} {a m : ℕ} {tae : ℝ}
    {modo : Modo} {an : ℕ} {pp pc : ℝ} {s : Sistema}
    (h : buscarFila cuadro a m = none) :
    aplicar_amortizacion_parcial cuadro cantidad a m tae modo an pp pc s = cuadro := by
  unfold aplicar_amortizacion_parcial
  rw [h]

theorem aplicar_fila0 {cuadro : List Fila} {cantidad : ℝ} {a m : ℕ} {tae : ℝ}
    {modo : Modo} {an : ℕ} {pp pc : ℝ} {s : Sistema} {idx : ℕ}
    (h : buscarFila cuadro a m = some idx) (h0 : idx < 1) :
    aplicar_amortizacion_parcial cuadro cantidad a m tae modo an pp pc s = cuadro := by
  unfold aplicar_amortizacion_parcial
  rw [h]
  simp only [if_pos h0]

theorem take_set_self (l : List Fila) (idx : ℕ) (F : Fila) (h : idx < l.length) :
    (l.set idx F).take (idx + 1) = l.take idx ++ [F] := by
  rw [List.set_eq_take_append_cons_drop, if_pos h]
  have hlen : (l.take idx).length = idx := List.length_take_of_le (by omega)
  rw [show idx + 1 = (l.take idx).length + 1 by rw [hlen], List.take_append]
  simp

theorem getD_mem (l : List Fila) {i : ℕ} (h : i < l.length) :
    l.getD i filaDefecto ∈ l := by
  rw [List.getD_eq_getElem?_getD, List.getElem?_eq_getElem h]
  exact List.getElem_mem h

theorem getD_mem_drop (l : List Fila) {i : ℕ} (h1 : 1 ≤ i) (h : i < l.length) :
    l.getD i filaDefecto ∈ l.drop 1 := by
  have h' : i - 1 < (l.drop 1).length := by simp [List.length_drop]; omega
  have : l.getD i filaDefecto = (l.drop 1).getD (i - 1) filaDefecto := by
    rw [List.getD_eq_getElem?_getD, List.getD_eq_getElem?_getD, List.getElem?_drop]
    have : 1 + (i - 1) = i := by omega
    rw [this]
  rw [this]
  exact getD_mem (l.drop 1) h'

theorem chain'_getD {cuadro : List Fila}
    (h : List.Chain' (fun f g => g.capital_pendiente ≤ f.capital_pendiente) cuadro)
    {i : ℕ} (hi : i + 1 < cuadro.length) :
    (cuadro.getD (i + 1) filaDefecto).capital_pendiente ≤
      (cuadro.getD i filaDefecto).capital_pendiente := by
  rw [List.chain'_iff_get] at h
  have := h i (by omega)
  simp only [List.get_eq_getElem] at this
  rw [List.getD_eq_getElem?_getD, List.getD_eq_getElem?_getD,
    List.getElem?_eq_getElem hi, List.getElem?_eq_getElem (by omega : i < cuadro.length)]
  exact this

theorem getLast?_take {cuadro : List Fila} {idx : ℕ} (h1 : 1 ≤ idx)
    (hlen : idx ≤ cuadro.length) :
    (cuadro.take idx).getLast? = some (cuadro.getD (idx - 1) filaDefecto) := by
  rw [List.getLast?_eq_getElem?, List.length_take_of_le hlen,
    List.getElem?_take_of_lt (by omega : idx - 1 < idx),
    List.getD_eq_getElem?_getD, List.getElem?_eq_getElem (by omega : idx - 1 < cuadro.length)]
  rfl

/-- The truncated-and-updated prefix keeps the pipeline invariant and ends in
the updated row. -/
theorem prefijo_inv (cuadro : List Fila) (idx : ℕ) (F : Fila) (r : ℝ)
    (hmem : ∀ f ∈ cuadro, FilaNoNegativa f)
    (hchain : List.Chain' (fun f g => g.capital_pendiente ≤ f.capital_pendiente) cuadro)
    (hclause : ∀ f ∈ cuadro.drop 1, f.capital_pendiente * r ≤ f.cuota)
    (hlen : idx < cuadro.length) (h1 : 1 ≤ idx)
    (hFnn : FilaNoNegativa F) (hFcl : F.capital_pendiente * r ≤ F.cuota)
    (hFle : F.capital_pendiente ≤ (cuadro.getD idx filaDefecto).capital_pendiente) :
    (∀ f ∈ cuadro.take idx ++ [F], FilaNoNegativa f) ∧
    List.Chain' (fun f g => g.capital_pendiente ≤ f.capital_pendiente)
      (cuadro.take idx ++ [F]) ∧
    (∀ f ∈ (cuadro.take idx ++ [F]).drop 1, f.capital_pendiente * r ≤ f.cuota) ∧
    (cuadro.take idx ++ [F]).getLast? = some F := by
  have hdrop1 : (cuadro.take idx ++ [F]).drop 1 = (cuadro.take idx).drop 1 ++ [F] :=
    List.drop_append_of_le_length (by rw [List.length_take_of_le (by omega)]; omega)
  refine ⟨?_, ?_, ?_, List.getLast?_concat _⟩
  · intro f hf
    rcases List.mem_append.mp hf with hf | hf
    · exact hmem f (List.mem_of_mem_take hf)
    · rw [List.mem_singleton] at hf
      subst hf
      exact hFnn
  · rw [List.chain'_append]
    refine ⟨hchain.take idx, List.chain'_singleton F, ?_⟩
    intro x hx y hy
    rw [getLast?_take h1 (by omega)] at hx
    simp only [Option.mem_def, Option.some.injEq] at hx hy
    rw [List.head?_cons, Option.some.injEq] at hy
    subst hx
    subst hy
    have hstep : (cuadro.getD (idx - 1 + 1) filaDefecto).capital_pendiente ≤
        (cuadro.getD (idx - 1) filaDefecto).capital_pendiente :=
      chain'_getD hchain (by omega)
    have heq : idx - 1 + 1 = idx := by omega
    rw [heq] at hstep
    exact le_trans hFle hstep
  · rw [hdrop1]
    intro f hf
    rcases List.mem_append.mp hf with hf | hf
    · rw [List.drop_take] at hf
      exact hclause f (List.mem_of_mem_take hf)
    · rw [List.mem_singleton] at hf
      subst hf
      exact hFcl

/-- Gluing the prefix with the regenerated rows. -/
theorem append_inv (l1 l2 : List Fila) (r : ℝ) (F : Fila)
    (h1mem : ∀ f ∈ l1, FilaNoNegativa f)
    (h1chain : List.Chain' (fun f g => g.capital_pendiente ≤ f.capital_pendiente) l1)
    (h1clause : ∀ f ∈ l1.drop 1, f.capital_pendiente * r ≤ f.cuota)
    (h1last : l1.getLast? = some F) (h1len : 1 ≤ l1.length)
    (h2mem : ∀ f ∈ l2, FilaNoNegativa f ∧ f.capital_pendiente * r ≤ f.cuota)
    (h2chain : List.Chain' (fun f g => g.capital_pendiente ≤ f.capital_pendiente) l2)
    (h2head : ∀ f ∈ l2.head?, f.capital_pendiente ≤ F.capital_pendiente) :
    InvCuadro r (l1 ++ l2) := by
  refine ⟨⟨?_, ?_⟩, ?_⟩
  · intro f hf
    rcases List.mem_append.mp hf with hf | hf
    · exact h1mem f hf
    · exact (h2mem f hf).1
  · rw [List.chain'_append]
    refine ⟨h1chain, h2chain, ?_⟩
    intro x hx y hy
    rw [h1last] at hx
    simp only [Option.mem_def, Option.some.injEq] at hx
    subst hx
    exact h2head y hy
  · rw [List.drop_append_of_le_length h1len]
    intro f hf
    rcases List.mem_append.mp hf with hf | hf
    · exact h1clause f hf
    · exact (h2mem f hf).2

/-- Specialization of `prefijo_inv` to an updated row. -/
theorem prefijo_actualizado_inv (cuadro : List Fila) (idx : ℕ) (neta fee nuevo r : ℝ)
    (hmem : ∀ f ∈ cuadro, FilaNoNegativa f)
    (hchain : List.Chain' (fun f g => g.capital_pendiente ≤ f.capital_pendiente) cuadro)
    (hclause : ∀ f ∈ cuadro.drop 1, f.capital_pendiente * r ≤ f.cuota)
    (hlen : idx < cuadro.length) (h1 : 1 ≤ idx)
    (hneta : 0 ≤ neta) (hfee : 0 ≤ fee) (hnuevo : 0 ≤ nuevo)
    (hle : nuevo ≤ (cuadro.getD idx filaDefecto).capital_pendiente)
    (hclr : nuevo * r ≤ (cuadro.getD idx filaDefecto).cuota) :
    (∀ f ∈ cuadro.take idx ++
        [filaActualizada (cuadro.getD idx filaDefecto) neta fee nuevo],
      FilaNoNegativa f) ∧
    List.Chain' (fun f g => g.capital_pendiente ≤ f.capital_pendiente)
      (cuadro.take idx ++
        [filaActualizada (cuadro.getD idx filaDefecto) neta fee nuevo]) ∧
    (∀ f ∈ (cuadro.take idx ++
        [filaActualizada (cuadro.getD idx filaDefecto) neta fee nuevo]).drop 1,
      f.capital_pendiente * r ≤ f.cuota) ∧
    (cuadro.take idx ++
        [filaActualizada (cuadro.getD idx filaDefecto) neta fee nuevo]).getLast? =
      some (filaActualizada (cuadro.getD idx filaDefecto) neta fee nuevo) := by
  obtain ⟨hq, hin, ham, hcap, -, -⟩ := hmem _ (getD_mem cuadro hlen)
  exact prefijo_inv cuadro idx _ r hmem hchain hclause hlen h1
    ⟨hq, hin, ham, hnuevo, hneta, hfee⟩ hclr hle

/-- The single prepayment applier preserves the pipeline invariant whenever the
gross amount is non-negative and the fee rate is a percentage in [0, 100]. -/
theorem aplicar_preserva (cuadro : List Fila) (cantidad : ℝ) (a m : ℕ) (tae : ℝ)
    (modo : Modo) (an : ℕ) (pp pc : ℝ) (s : Sistema)
    (htae : 0 ≤ tae) (hcant : 0 ≤ cantidad) (hpc0 : 0 ≤ pc) (hpc1 : pc ≤ 100)
    (hinv : InvCuadro (calcular_tipo_mensual tae) cuadro) :
    InvCuadro (calcular_tipo_mensual tae)
      (aplicar_amortizacion_parcial cuadro cantidad a m tae modo an pp pc s) := by
  obtain ⟨⟨hmem, hchain⟩, hclause⟩ := hinv
  have hr : 0 ≤ calcular_tipo_mensual tae := tipo_mensual_nonneg htae
  cases hfind : buscarFila cuadro a m with
  | none => rw [aplicar_none hfind]; exact ⟨⟨hmem, hchain⟩, hclause⟩
  | some idx =>
    by_cases hidx : idx < 1
    · rw [aplicar_fila0 hfind hidx]
      exact ⟨⟨hmem, hchain⟩, hclause⟩
    have h1 : 1 ≤ idx := by omega
    have hlen : idx < cuadro.length := buscarFila_lt_length hfind
    obtain ⟨hq, hin, ham, hcap, hant, hcom⟩ := hmem _ (getD_mem cuadro hlen)
    have hfcl : (cuadro.getD idx filaDefecto).capital_pendiente *
        calcular_tipo_mensual tae ≤ (cuadro.getD idx filaDefecto).cuota :=
      hclause _ (getD_mem_drop cuadro h1 hlen)
    have hpc100 : pc / 100 ≤ 1 := by linarith
    have hfee : 0 ≤ cantidad * (pc / 100) := mul_nonneg hcant (by linarith)
    have hneta : 0 ≤ cantidad - cantidad * (pc / 100) := by
      have h := mul_le_mul_of_nonneg_left hpc100 hcant
      rw [mul_one] at h
      linarith
    rcases lt_trichotomy ((cuadro.getD idx filaDefecto).capital_pendiente -
        (cantidad - cantidad * (pc / 100))) 0 with hneg | hzero | hpos
    · rw [aplicar_clamp hfind h1 hneg, take_set_self cuadro idx _ hlen]
      obtain ⟨pmem, pchain, pclause, -⟩ := prefijo_actualizado_inv cuadro idx
        (cuadro.getD idx filaDefecto).capital_pendiente
        ((cuadro.getD idx filaDefecto).capital_pendiente / (1 - pc / 100) * (pc / 100)) 0
        (calcular_tipo_mensual tae) hmem hchain hclause hlen h1 hcap
        (mul_nonneg (div_nonneg hcap (by linarith)) (by linarith)) le_rfl hcap
        (by rw [zero_mul]; exact hq)
      exact ⟨⟨pmem, pchain⟩, pclause⟩
    · rw [aplicar_exacto hfind h1 hzero, take_set_self cuadro idx _ hlen]
      obtain ⟨pmem, pchain, pclause, -⟩ := prefijo_actualizado_inv cuadro idx _ _ 0
        (calcular_tipo_mensual tae) hmem hchain hclause hlen h1 hneta hfee le_rfl hcap
        (by rw [zero_mul]; exact hq)
      exact ⟨⟨pmem, pchain⟩, pclause⟩
    · have hnuevo : 0 ≤ (cuadro.getD idx filaDefecto).capital_pendiente -
          (cantidad - cantidad * (pc / 100)) := le_of_lt hpos
      have hle : (cuadro.getD idx filaDefecto).capital_pendiente -
          (cantidad - cantidad * (pc / 100)) ≤
            (cuadro.getD idx filaDefecto).capital_pendiente := by linarith
      have hclr : ((cuadro.getD idx filaDefecto).capital_pendiente -
          (cantidad - cantidad * (pc / 100))) * calcular_tipo_mensual tae ≤
            (cuadro.getD idx filaDefecto).cuota :=
        le_trans (mul_le_mul_of_nonneg_right hle hr) hfcl
      obtain ⟨pmem, pchain, pclause, plast⟩ := prefijo_actualizado_inv cuadro idx _ _ _
        (calcular_tipo_mensual tae) hmem hchain hclause hlen h1 hneta hfee hnuevo hle hclr
      have hplen : 1 ≤ (cuadro.take idx ++
          [filaActualizada (cuadro.getD idx filaDefecto)
            (cantidad - cantidad * (pc / 100)) (cantidad * (pc / 100))
            ((cuadro.getD idx filaDefecto).capital_pendiente -
              (cantidad - cantidad * (pc / 100)))]).length := by
        simp
      cases modo with
      | plazo =>
          rw [aplicar_plazo_pos hfind h1 hpos, take_set_self cuadro idx _ hlen]
          obtain ⟨lmem, lchain, lhead⟩ := filasPlazo_inv
            (cuadro.getD idx filaDefecto).cuota (calcular_tipo_mensual tae)
            ((a - 1) * 12 + m) hr hq 1000
            ((cuadro.getD idx filaDefecto).capital_pendiente -
              (cantidad - cantidad * (pc / 100))) 1 hnuevo hclr
          exact append_inv _ _ _ _ pmem pchain pclause plast hplen lmem lchain lhead
      | cuota =>
          cases s with
          | frances =>
              rw [aplicar_cuota_frances_pos hfind h1 hpos, take_set_self cuadro idx _ hlen]
              by_cases hm0 : cuadro.length - idx - 1 = 0
              · rw [hm0, show filasFrances
                    (calcular_cuota_francesa
                      ((cuadro.getD idx filaDefecto).capital_pendiente -
                        (cantidad - cantidad * (pc / 100)))
                      (calcular_tipo_mensual tae) 0) (calcular_tipo_mensual tae)
                    ((cuadro.getD idx filaDefecto).capital_pendiente -
                      (cantidad - cantidad * (pc / 100))) ((a - 1) * 12 + m) 0 = []
                  from rfl, List.append_nil]
                exact ⟨⟨pmem, pchain⟩, pclause⟩
              · have hm1 : 1 ≤ cuadro.length - idx - 1 := by omega
                obtain ⟨hge, hcnn⟩ := cuota_francesa_ge
                  ((cuadro.getD idx filaDefecto).capital_pendiente -
                    (cantidad - cantidad * (pc / 100)))
                  (calcular_tipo_mensual tae) (cuadro.length - idx - 1) hnuevo hr hm1
                obtain ⟨lmem, lchain⟩ := filasFrances_inv
                  (calcular_cuota_francesa
                    ((cuadro.getD idx filaDefecto).capital_pendiente -
                      (cantidad - cantidad * (pc / 100)))
                    (calcular_tipo_mensual tae) (cuadro.length - idx - 1))
                  (calcular_tipo_mensual tae)
                  ((cuadro.getD idx filaDefecto).capital_pendiente -
                    (cantidad - cantidad * (pc / 100)))
                  ((a - 1) * 12 + m) (cuadro.length - idx - 1) hr hnuevo hcnn hge
                have lhead := filasFrances_head
                  (calcular_cuota_francesa
                    ((cuadro.getD idx filaDefecto).capital_pendiente -
                      (cantidad - cantidad * (pc / 100)))
                    (calcular_tipo_mensual tae) (cuadro.length - idx - 1))
                  (calcular_tipo_mensual tae)
                  ((cuadro.getD idx filaDefecto).capital_pendiente -
                    (cantidad - cantidad * (pc / 100)))
                  ((a - 1) * 12 + m) (cuadro.length - idx - 1) hr hnuevo hge
                exact append_inv _ _ _ _ pmem pchain pclause plast hplen
                  (fun f hf => (lmem f hf).1) lchain lhead
          | aleman =>
              rw [aplicar_cuota_aleman_pos hfind h1 hpos, take_set_self cuadro idx _ hlen]
              have hA : 0 ≤ ((cuadro.getD idx filaDefecto).capital_pendiente -
                  (cantidad - cantidad * (pc / 100))) /
                    ((cuadro.length - idx - 1 : ℕ) : ℝ) :=
                div_nonneg hnuevo (Nat.cast_nonneg _)
              obtain ⟨lmem, lchain⟩ := filasAleman_inv
                (((cuadro.getD idx filaDefecto).capital_pendiente -
                  (cantidad - cantidad * (pc / 100))) /
                    ((cuadro.length - idx - 1 : ℕ) : ℝ))
                (calcular_tipo_mensual tae)
                ((cuadro.getD idx filaDefecto).capital_pendiente -
                  (cantidad - cantidad * (pc / 100)))
                ((a - 1) * 12 + m) (cuadro.length - idx - 1) hr hnuevo hA
              have lhead := filasAleman_head
                (((cuadro.getD idx filaDefecto).capital_pendiente -
                  (cantidad - cantidad * (pc / 100))) /
                    ((cuadro.length - idx - 1 : ℕ) : ℝ))
                (calcular_tipo_mensual tae)
                ((cuadro.getD idx filaDefecto).capital_pendiente -
                  (cantidad - cantidad * (pc / 100)))
                ((a - 1) * 12 + m) (cuadro.length - idx - 1) hA hnuevo
              exact append_inv _ _ _ _ pmem pchain pclause plast hplen
                (fun f hf => (lmem f hf).1) lchain lhead

/-- The generator establishes the pipeline invariant. -/
theorem generar_inv (P tae : ℝ) (meses : ℕ) (s : Sistema) (hP : 0 ≤ P)
    (htae : 0 ≤ tae) (hm : 1 ≤ meses) :
    InvCuadro (calcular_tipo_mensual tae) (generar_cuadro_amortizacion P tae meses s) := by
  have hr := tipo_mensual_nonneg htae
  have h0 : FilaNoNegativa (filaInicial P) := ⟨le_rfl, le_rfl, le_rfl, hP, le_rfl, le_rfl⟩
  cases s with
  | frances =>
      obtain ⟨hge, hcnn⟩ := cuota_francesa_ge P (calcular_tipo_mensual tae) meses hP hr hm
      obtain ⟨lmem, lchain⟩ := filasFrances_inv
        (calcular_cuota_francesa P (calcular_tipo_mensual tae) meses)
        (calcular_tipo_mensual tae) P 0 meses hr hP hcnn hge
      have lhead := filasFrances_head
        (calcular_cuota_francesa P (calcular_tipo_mensual tae) meses)
        (calcular_tipo_mensual tae) P 0 meses hr hP hge
      have hgen : generar_cuadro_amortizacion P tae meses Sistema.frances =
          filaInicial P ::
            filasFrances (calcular_cuota_francesa P (calcular_tipo_mensual tae) meses)
              (calcular_tipo_mensual tae) P 0 meses := rfl
      rw [hgen]
      refine ⟨⟨?_, ?_⟩, ?_⟩
      · intro f hf
        rcases List.mem_cons.mp hf with rfl | hf
        · exact h0
        · exact (lmem f hf).1.1
      · rw [List.chain'_cons']
        exact ⟨fun y hy => lhead y hy, lchain⟩
      · intro f hf
        exact (lmem f hf).1.2
  | aleman =>
      have hA : 0 ≤ P / (meses : ℝ) := div_nonneg hP (Nat.cast_nonneg _)
      obtain ⟨lmem, lchain⟩ := filasAleman_inv (P / (meses : ℝ))
        (calcular_tipo_mensual tae) P 0 meses hr hP hA
      have lhead := filasAleman_head (P / (meses : ℝ)) (calcular_tipo_mensual tae)
        P 0 meses hA hP
      have hgen : generar_cuadro_amortizacion P tae meses Sistema.aleman =
          filaInicial P ::
            filasAleman (P / (meses : ℝ)) (calcular_tipo_mensual tae) P 0 meses := rfl
      rw [hgen]
      refine ⟨⟨?_, ?_⟩, ?_⟩
      · intro f hf
        rcases List.mem_cons.mp hf with rfl | hf
        · exact h0
        · exact (lmem f hf).1.1
      · rw [List.chain'_cons']
        exact ⟨fun y hy => lhead y hy, lchain⟩
      · intro f hf
        exact (lmem f hf).1.2

/-- The orchestrator loop preserves the pipeline invariant. -/
theorem procesar_preserva (tae c : ℝ) (modo : Modo) (an : ℕ) (pp pc : ℝ)
    (s : Sistema) (htae : 0 ≤ tae) (hcant : 0 ≤ c) (hpc0 : 0 ≤ pc) (hpc1 : pc ≤ 100) :
    ∀ (ms : List ℕ) (cuadro : List Fila),
      InvCuadro (calcular_tipo_mensual tae) cuadro →
      InvCuadro (calcular_tipo_mensual tae)
        (procesarMeses tae c modo an pp pc s cuadro ms) := by
  intro ms
  induction ms with
  | nil => intro cuadro hinv; exact hinv
  | cons mo resto ih =>
      intro cuadro hinv
      rw [procesarMeses_cons]
      cases hb : buscarFilaDesde1 cuadro ((mo - 1) / 12 + 1) ((mo - 1) % 12 + 1) with
      | none => exact ih cuadro hinv
      | some idx =>
          split
          · exact ih cuadro hinv
          · split
            · exact hinv
            · exact ih _ (aplicar_preserva cuadro c ((mo - 1) / 12 + 1)
                ((mo - 1) % 12 + 1) tae modo an pp pc s htae hcant hpc0 hpc1 hinv)

/-!  ### Claim C8  -/

/-- Statement of claim C8: schedules produced by the generator, the single
applier (on a schedule satisfying the pipeline invariant), and the recurring
orchestrator have only non-negative monetary fields and a non-increasing
outstanding balance. -/
def PropC8 (principal tae : ℝ) (meses : ℕ) (cuadro : List Fila) (cantidad : ℝ)
    (a m : ℕ) (modo : Modo) (an : ℕ) (pp pc : ℝ) (s : Sistema)
    (periodicidad mes_comienzo : ℕ) : Prop :=
  CuadroValido (generar_cuadro_amortizacion principal tae meses s) ∧
  CuadroValido (aplicar_amortizacion_parcial cuadro cantidad a m tae modo an pp pc s) ∧
  CuadroValido (aplicar_amortizaciones_recurrentes principal tae meses cantidad
    periodicidad mes_comienzo modo an pp pc s)

/-- Claim C8: under the validated input ranges (positive principal, rate in
[0, 20], positive term, prepayment amount in [0, principal], and a fee rate
that is a percentage in [0, 100]), every schedule produced by the generator,
the single applier (fed a schedule from this same pipeline, expressed by the
invariant `InvCuadro`) or the recurring orchestrator has only non-negative
monetary fields on every row and a non-increasing outstanding balance across
consecutive rows. -/
theorem claim_C8 (principal tae : ℝ) (meses : ℕ) (cuadro : List Fila)
    (cantidad : ℝ) (a m : ℕ) (modo : Modo) (an : ℕ) (pp pc : ℝ) (s : Sistema)
    (periodicidad mes_comienzo : ℕ)
    (hP : 0 < principal) (htae : 0 ≤ tae) (htae20 : tae ≤ 20) (hm : 1 ≤ meses)
    (hcant : 0 ≤ cantidad) (hcantP : cantidad ≤ principal)
    (hpc0 : 0 ≤ pc) (hpc1 : pc ≤ 100)
    (hcuadro : InvCuadro (calcular_tipo_mensual tae) cuadro) :
    PropC8 principal tae meses cuadro cantidad a m modo an pp pc s
      periodicidad mes_comienzo :=
  ⟨(generar_inv principal tae meses s (le_of_lt hP) htae hm).1,
   (aplicar_preserva cuadro cantidad a m tae modo an pp pc s htae hcant hpc0 hpc1
     hcuadro).1,
   (procesar_preserva tae cantidad modo an pp pc s htae hcant hpc0 hpc1
     (mesesAmortizacion mes_comienzo meses periodicidad)
     (generar_cuadro_amortizacion principal tae meses s)
     (generar_inv principal tae meses s (le_of_lt hP) htae hm)).1⟩

theorem tipo_mensual_cero : calcular_tipo_mensual 0 = 0 := by
  unfold calcular_tipo_mensual
  norm_num

/-- Witness instantiating claim C8 on a concrete loan and a concrete two-row
schedule satisfying the pipeline invariant. -/
theorem claim_C8_witness :
    PropC8 100 0 1 [filaInicial 100, filaPrueba] 10 1 1 Modo.cuota 0 0 0
      Sistema.frances 1 1 := by
  have hinv : InvCuadro (calcular_tipo_mensual 0) [filaInicial 100, filaPrueba] := by
    rw [tipo_mensual_cero]
    refine ⟨⟨?_, ?_⟩, ?_⟩
    · intro f hf
      rcases List.mem_cons.mp hf with rfl | hf
      · exact ⟨le_rfl, le_rfl, le_rfl, by norm_num [filaInicial], le_rfl, le_rfl⟩
      · rw [List.mem_singleton] at hf
        subst hf
        exact ⟨by norm_num [filaPrueba], by norm_num [filaPrueba],
          by norm_num [filaPrueba], by norm_num [filaPrueba],
          by norm_num [filaPrueba], by norm_num [filaPrueba]⟩
    · rw [List.chain'_cons]
      refine ⟨?_, List.chain'_singleton _⟩
      show filaPrueba.capital_pendiente ≤ (filaInicial 100).capital_pendiente
      norm_num [filaPrueba, filaInicial]
    · intro f hf
      rw [show ([filaInicial 100, filaPrueba].drop 1) = [filaPrueba] from rfl,
        List.mem_singleton] at hf
      subst hf
      show filaPrueba.capital_pendiente * 0 ≤ filaPrueba.cuota
      norm_num [filaPrueba]
  exact claim_C8 100 0 1 [filaInicial 100, filaPrueba] 10 1 1 Modo.cuota 0 0 0
    Sistema.frances 1 1 (by norm_num) le_rfl (by norm_num) (by omega) (by norm_num)
    (by norm_num) le_rfl (by norm_num) hinv

/-!  ### Claim C7: helper bounds and the final-installment selection  -/

theorem clampCapital_ge (x : ℝ) : x ≤ clampCapital x := by
  unfold clampCapital
  split
  · exact le_of_lt (by assumption)
  · exact le_rfl

/-- Crude linear lower bound on the French balance: each month amortizes at
most the full installment. -/
theorem capitalFrances_ge_linear (c r P : ℝ) (hr : 0 ≤ r) (hP : 0 ≤ P) :
    ∀ i : ℕ, P - (i : ℝ) * c ≤ capitalFrances c r P i := by
  intro i
  induction i with
  | zero => simp [capitalFrances]
  | succ i ih =>
      rw [capitalFrances_succ]
      have hnn : 0 ≤ capitalFrances c r P i := capitalFrances_nonneg c r P hP i
      have hir : 0 ≤ capitalFrances c r P i * r := mul_nonneg hnn hr
      have h1 : capitalFrances c r P i - c ≤
          capitalFrances c r P i - (c - capitalFrances c r P i * r) := by linarith
      have h2 := clampCapital_ge
        (capitalFrances c r P i - (c - capitalFrances c r P i * r))
      push_cast
      linarith

/-- Monthly rate is at most `tae/100` (the 12-th root of a base ≥ 1 is at most
the base). -/
theorem tipo_mensual_le {tae : ℝ} (h : 0 ≤ tae) :
    calcular_tipo_mensual tae ≤ tae / 100 := by
  unfold calcular_tipo_mensual
  have hx : (1 : ℝ) ≤ 1 + tae / 100 := by linarith
  have h1 : (1 + tae / 100) ^ ((1 : ℝ) / 12) ≤ (1 + tae / 100) ^ (1 : ℝ) :=
    Real.rpow_le_rpow_of_exponent_le hx (by norm_num)
  rw [Real.rpow_one] at h1
  linarith

/-- Bernoulli bound on the annuity installment: `C ≤ P·(r + 1/n)`. -/
theorem cuota_francesa_le (P r : ℝ) (n : ℕ) (hP : 0 ≤ P) (hr : 0 < r)
    (hn : 1 ≤ n) :
    calcular_cuota_francesa P r n ≤ P * (r + 1 / (n : ℝ)) := by
  have hF : 1 < (1 + r) ^ n := one_lt_pow₀ (by linarith) (by omega)
  have hn0 : (0 : ℝ) < (n : ℝ) := Nat.cast_pos.mpr (by omega)
  have hbern : 1 + (n : ℝ) * r ≤ (1 + r) ^ n := one_add_mul_le_pow (by linarith) n
  rw [cuota_francesa_eq P r n (ne_of_gt hr),
    div_le_iff (by linarith : (0 : ℝ) < (1 + r) ^ n - 1)]
  have key : (r + 1 / (n : ℝ)) * ((1 + r) ^ n - 1) - r * (1 + r) ^ n =
      ((1 + r) ^ n - 1 - (n : ℝ) * r) / (n : ℝ) := by
    field_simp
    ring
  have h2 : 0 ≤ ((1 + r) ^ n - 1 - (n : ℝ) * r) / (n : ℝ) :=
    div_nonneg (by linarith) (le_of_lt hn0)
  have h3 : r * (1 + r) ^ n ≤ (r + 1 / (n : ℝ)) * ((1 + r) ^ n - 1) := by linarith
  calc P * (r * (1 + r) ^ n) ≤ P * ((r + 1 / (n : ℝ)) * ((1 + r) ^ n - 1)) :=
        mul_le_mul_of_nonneg_left h3 hP
    _ = P * (r + 1 / (n : ℝ)) * ((1 + r) ^ n - 1) := by ring

theorem sum_map_comision_cero (l : List Fila) (h : ∀ f ∈ l, f.comision = 0) :
    (l.map Fila.comision).sum = 0 := by
  induction l with
  | nil => rfl
  | cons x t ih =>
      simp only [List.map_cons, List.sum_cons, h x (List.mem_cons_self x t)]
      rw [ih (fun f hf => h f (List.mem_cons_of_mem x hf))]
      ring

theorem filasFrances_comision (c r b0 : ℝ) (mes0 m : ℕ) :
    ∀ f ∈ filasFrances c r b0 mes0 m, f.comision = 0 := by
  intro f hf
  obtain ⟨k, -, rfl⟩ := List.mem_map.mp hf
  rfl

/-- The index filter of `calcular_resumen`, named for the final-installment
lemmas. -/
noncomputable def indicesConAmortizacion (cuadro : List Fila) : List ℕ :=
  (List.range cuadro.length).filter
    (fun i => decide (1 ≤ i) &&
      decide (0 < (cuadro.getD i filaDefecto).amortizacion_anticipada))

theorem cuota_final_match (cuadro : List Fila) :
    (calcular_resumen cuadro).cuota_final =
      match (indicesConAmortizacion cuadro).getLast? with
      | none => (calcular_resumen cuadro).cuota_inicial
      | some pos_ultimo =>
          if pos_ultimo + 1 < cuadro.length then
            (cuadro.getD (pos_ultimo + 1) filaDefecto).cuota
          else (cuadro.getD pos_ultimo filaDefecto).cuota := by
  unfold calcular_resumen indicesConAmortizacion
  cases h : ((List.range cuadro.length).filter
      (fun i => decide (1 ≤ i) &&
        decide (0 < (cuadro.getD i filaDefecto).amortizacion_anticipada))).getLast? with
  | none => simp only [h]
  | some pos => simp only [h]

theorem indicesConAmortizacion_vacio (cuadro : List Fila)
    (h : ∀ i, 1 ≤ i → i < cuadro.length →
      (cuadro.getD i filaDefecto).amortizacion_anticipada ≤ 0) :
    indicesConAmortizacion cuadro = [] := by
  unfold indicesConAmortizacion
  rw [List.filter_eq_nil]
  intro i hi
  rw [List.mem_range] at hi
  by_cases h1 : 1 ≤ i
  · simp only [Bool.and_eq_true, decide_eq_true_eq, not_and, not_lt]
    intro _
    exact h i h1 hi
  · simp only [Bool.and_eq_true, decide_eq_true_eq, not_and, not_lt]
    intro h'
    exact absurd h' h1

theorem indicesConAmortizacion_ultimo (cuadro : List Fila) (j : ℕ)
    (hj : 1 ≤ j) (hjlen : j < cuadro.length)
    (hpj : 0 < (cuadro.getD j filaDefecto).amortizacion_anticipada)
    (hlast : ∀ i, j < i → i < cuadro.length →
      (cuadro.getD i filaDefecto).amortizacion_anticipada ≤ 0) :
    (indicesConAmortizacion cuadro).getLast? = some j := by
  unfold indicesConAmortizacion
  have hsplit : List.range cuadro.length =
      List.range (j + 1) ++ List.range' (j + 1) (cuadro.length - (j + 1)) := by
    have happ := List.range'_append_1 0 (j + 1) (cuadro.length - (j + 1))
    simp only [Nat.zero_add] at happ
    rw [List.range_eq_range', List.range_eq_range']
    conv_lhs => rw [show cuadro.length = (cuadro.length - (j + 1)) + (j + 1) from by omega]
    exact happ.symm
  rw [hsplit, List.filter_append]
  have htail : (List.range' (j + 1) (cuadro.length - (j + 1))).filter
      (fun i => decide (1 ≤ i) &&
        decide (0 < (cuadro.getD i filaDefecto).amortizacion_anticipada)) = [] := by
    rw [List.filter_eq_nil]
    intro i hi
    obtain ⟨k, hk, rfl⟩ := List.mem_range'.mp hi
    simp only [Bool.and_eq_true, decide_eq_true_eq, not_and, not_lt]
    intro _
    exact hlast (j + 1 + 1 * k) (by omega) (by omega)
  rw [htail, List.append_nil, List.range_succ, List.filter_append]
  have hj' : (List.filter (fun i => decide (1 ≤ i) &&
      decide (0 < (cuadro.getD i filaDefecto).amortizacion_anticipada)) [j]) = [j] := by
    simp only [List.filter_cons, List.filter_nil]
    rw [if_pos (by simp only [Bool.and_eq_true, decide_eq_true_eq]; exact ⟨hj, hpj⟩)]
  rw [hj']
  exact List.getLast?_concat _

theorem cuota_final_sin_amortizacion (cuadro : List Fila)
    (h : ∀ i, 1 ≤ i → i < cuadro.length →
      (cuadro.getD i filaDefecto).amortizacion_anticipada ≤ 0) :
    (calcular_resumen cuadro).cuota_final = (calcular_resumen cuadro).cuota_inicial := by
  rw [cuota_final_match, indicesConAmortizacion_vacio cuadro h]
  rfl

theorem cuota_final_con_amortizacion (cuadro : List Fila) (j : ℕ)
    (hj : 1 ≤ j) (hjlen : j < cuadro.length)
    (hpj : 0 < (cuadro.getD j filaDefecto).amortizacion_anticipada)
    (hlast : ∀ i, j < i → i < cuadro.length →
      (cuadro.getD i filaDefecto).amortizacion_anticipada ≤ 0) :
    (j + 1 < cuadro.length →
      (calcular_resumen cuadro).cuota_final = (cuadro.getD (j + 1) filaDefecto).cuota) ∧
    (j + 1 = cuadro.length →
      (calcular_resumen cuadro).cuota_final = (cuadro.getD j filaDefecto).cuota) := by
  have hu := indicesConAmortizacion_ultimo cuadro j hj hjlen hpj hlast
  constructor
  · intro hlt
    rw [cuota_final_match, hu]
    exact if_pos hlt
  · intro heq
    rw [cuota_final_match, hu]
    exact if_neg (by omega)

/-!  ### Claim C7  -/

/-- Statement of claim C7: the summary's returned fields are the stated column
aggregates over rows 1..N (row 0 excluded), the final installment follows the
last-prepayment rule, and the reference scenario (principal 100000, rate 3%,
120 months, French, prepayment 10000 at year 1 month 5 with fee 0.75%) yields
fee 75, net prepayment 9925 and summary total fees 75. -/
def PropC7 : Prop :=
  (∀ cuadro : List Fila, 2 ≤ cuadro.length →
    (calcular_resumen cuadro).total_intereses =
      ((cuadro.drop 1).map Fila.interes).sum ∧
    (calcular_resumen cuadro).total_amortizacion_anticipada =
      ((cuadro.drop 1).map Fila.amortizacion_anticipada).sum ∧
    (calcular_resumen cuadro).total_comisiones =
      ((cuadro.drop 1).map Fila.comision).sum ∧
    (calcular_resumen cuadro).num_cuotas = (cuadro.drop 1).length ∧
    (calcular_resumen cuadro).duracion_anios =
      (((cuadro.drop 1).length : ℕ) : ℝ) / 12 ∧
    (calcular_resumen cuadro).cuota_inicial = (cuadro.getD 1 filaDefecto).cuota ∧
    (calcular_resumen cuadro).cuota_media =
      ((cuadro.drop 1).map Fila.cuota).sum / (((cuadro.drop 1).length : ℕ) : ℝ) ∧
    (calcular_resumen cuadro).total_pagado =
      ((cuadro.drop 1).map Fila.cuota).sum +
        ((cuadro.drop 1).map Fila.amortizacion_anticipada).sum +
        ((cuadro.drop 1).map Fila.comision).sum ∧
    ((∀ i, 1 ≤ i → i < cuadro.length →
        (cuadro.getD i filaDefecto).amortizacion_anticipada ≤ 0) →
      (calcular_resumen cuadro).cuota_final = (calcular_resumen cuadro).cuota_inicial) ∧
    (∀ j, 1 ≤ j → j < cuadro.length →
      0 < (cuadro.getD j filaDefecto).amortizacion_anticipada →
      (∀ i, j < i → i < cuadro.length →
        (cuadro.getD i filaDefecto).amortizacion_anticipada ≤ 0) →
      (j + 1 < cuadro.length →
        (calcular_resumen cuadro).cuota_final =
          (cuadro.getD (j + 1) filaDefecto).cuota) ∧
      (j + 1 = cuadro.length →
        (calcular_resumen cuadro).cuota_final =
          (cuadro.getD j filaDefecto).cuota))) ∧
  ((aplicar_amortizacion_parcial
      (generar_cuadro_amortizacion 100000 3 120 Sistema.frances) 10000 1 5 3
      Modo.cuota 10 0.5 0.75 Sistema.frances).getD 5 filaDefecto).comision = 75 ∧
  ((aplicar_amortizacion_parcial
      (generar_cuadro_amortizacion 100000 3 120 Sistema.frances) 10000 1 5 3
      Modo.cuota 10 0.5 0.75 Sistema.frances).getD 5 filaDefecto).amortizacion_anticipada =
    9925 ∧
  (calcular_resumen (aplicar_amortizacion_parcial
      (generar_cuadro_amortizacion 100000 3 120 Sistema.frances) 10000 1 5 3
      Modo.cuota 10 0.5 0.75 Sistema.frances)).total_comisiones = 75

/-- Claim C7: the summary aggregator excludes row 0 and aggregates the columns
as stated, and the reference scenario records fee 75.00, extraordinary
prepayment 9925.00 and summary total fees 75.00. -/
theorem claim_C7 : PropC7 := by
  constructor
  · intro cuadro hlen
    obtain ⟨c0, c1, rest, rfl⟩ : ∃ c0 c1 rest, cuadro = c0 :: c1 :: rest := by
      match cuadro, hlen with
      | c0 :: c1 :: rest, _ => exact ⟨c0, c1, rest, rfl⟩
    exact ⟨rfl, rfl, rfl, rfl, rfl, rfl, rfl, rfl,
      fun h => cuota_final_sin_amortizacion _ h,
      fun j hj hjlen hpj hlast =>
        cuota_final_con_amortizacion _ j hj hjlen hpj hlast⟩
  · -- the concrete scenario
    have hr0 : 0 < calcular_tipo_mensual 3 := tipo_mensual_pos (by norm_num)
    have hrle : calcular_tipo_mensual 3 ≤ 3 / 100 := tipo_mensual_le (by norm_num)
    have hCle := cuota_francesa_le 100000 (calcular_tipo_mensual 3) 120
      (by norm_num) hr0 (by omega)
    have hble := capitalFrances_ge_linear
      (calcular_cuota_francesa 100000 (calcular_tipo_mensual 3) 120)
      (calcular_tipo_mensual 3) 100000 (le_of_lt hr0) (by norm_num) 5
    have hcap5 : ((generar_cuadro_amortizacion 100000 3 120 Sistema.frances).getD 5
        filaDefecto).capital_pendiente =
        capitalFrances (calcular_cuota_francesa 100000 (calcular_tipo_mensual 3) 120)
          (calcular_tipo_mensual 3) 100000 5 :=
      generar_frances_capital 100000 3 (by omega)
    have hfind : buscarFila (generar_cuadro_amortizacion 100000 3 120 Sistema.frances)
        1 5 = some 5 := by decide
    have hlen5 : 5 < (generar_cuadro_amortizacion 100000 3 120 Sistema.frances).length := by
      rw [generar_length]
      omega
    have hpos : 0 < ((generar_cuadro_amortizacion 100000 3 120
        Sistema.frances).getD 5 filaDefecto).capital_pendiente -
        (10000 - 10000 * (0.75 / 100)) := by
      rw [hcap5]
      have h5 : ((5 : ℕ) : ℝ) = 5 := by norm_num
      rw [h5] at hble
      nlinarith [hble, hCle, hrle]
    have hmarc := @aplicar_fila_marcada
      (generar_cuadro_amortizacion 100000 3 120 Sistema.frances) 10000 1 5 3
      Modo.cuota 10 0.5 0.75 Sistema.frances 5 hfind (by omega) (by linarith)
    refine ⟨?_, ?_, ?_⟩
    · rw [hmarc]
      show (10000 : ℝ) * (0.75 / 100) = 75
      norm_num
    · rw [hmarc]
      show (10000 : ℝ) - 10000 * (0.75 / 100) = 9925
      norm_num
    · have hres := @aplicar_cuota_frances_pos
        (generar_cuadro_amortizacion 100000 3 120 Sistema.frances) 10000 1 5 3
        10 0.5 0.75 5 hfind (by omega) hpos
      rw [take_set_self _ 5 _ hlen5] at hres
      have htc : (calcular_resumen (aplicar_amortizacion_parcial
          (generar_cuadro_amortizacion 100000 3 120 Sistema.frances) 10000 1 5 3
          Modo.cuota 10 0.5 0.75 Sistema.frances)).total_comisiones =
          (((aplicar_amortizacion_parcial
            (generar_cuadro_amortizacion 100000 3 120 Sistema.frances) 10000 1 5 3
            Modo.cuota 10 0.5 0.75 Sistema.frances).drop 1).map Fila.comision).sum := rfl
      rw [htc, hres]
      have hlenpre : 1 ≤ ((generar_cuadro_amortizacion 100000 3 120
          Sistema.frances).take 5).length := by
        rw [List.length_take_of_le (by rw [generar_length]; omega)]
        omega
      rw [List.append_assoc, List.drop_append_of_le_length hlenpre,
        List.map_append, List.sum_append, List.map_append, List.sum_append]
      have hsum1 : ((((generar_cuadro_amortizacion 100000 3 120
          Sistema.frances).take 5).drop 1).map Fila.comision).sum = 0 := by
        apply sum_map_comision_cero
        intro f hf
        have hf' : f ∈ (generar_cuadro_amortizacion 100000 3 120
            Sistema.frances).drop 1 := by
          rw [List.drop_take] at hf
          exact List.mem_of_mem_take hf
        exact filasFrances_comision _ _ _ _ _ f hf'
      have hsum3 : ((filasFrances
          (calcular_cuota_francesa
            (((generar_cuadro_amortizacion 100000 3 120 Sistema.frances).getD 5
              filaDefecto).capital_pendiente - (10000 - 10000 * (0.75 / 100)))
            (calcular_tipo_mensual 3)
            ((generar_cuadro_amortizacion 100000 3 120 Sistema.frances).length - 5 - 1))
          (calcular_tipo_mensual 3)
          (((generar_cuadro_amortizacion 100000 3 120 Sistema.frances).getD 5
            filaDefecto).capital_pendiente - (10000 - 10000 * (0.75 / 100)))
          ((1 - 1) * 12 + 5)
          ((generar_cuadro_amortizacion 100000 3 120 Sistema.frances).length - 5 - 1)).map
            Fila.comision).sum = 0 :=
        sum_map_comision_cero _ (filasFrances_comision _ _ _ _ _)
      rw [hsum1, hsum3]
      show (0 : ℝ) + (10000 * (0.75 / 100) + 0 + 0) = 75
      norm_num

end Calculadora
